import Mathlib

/-!
Verification development for the did-core-sdk trust-verification core.

The TypeScript sources are shallowly embedded:
* JSON-like runtime values become the mutual inductive `Json` (composite
  nodes carry a `ref` tag modelling JavaScript object identity, which
  `===` compares on composites);
* the canonicalizer `canonicalize` (src/unnamed/part_010) is embedded
  twice: on reference-annotated trees (acyclic values, where the WeakSet
  guard of the source can only fire on a repeated `ref`), and on an
  explicit heap (`Store`) for values with shared or cyclic references;
* credentials (`VC`), DID documents, the delegation-chain validator and
  the revocation checker follow src/src/vc/index.ts, src/src/vc/revoke.ts,
  src/src/did/index.ts, src/src/did/didKey.ts and src/src/did/didWeb.ts;
* external boundaries (WebCrypto Ed25519, network DID resolution, Date
  parsing, pako inflate + roaring bitmap decoding, decodeURIComponent)
  are modelled symbolically through an explicit environment `Env`,
  with Ed25519 idealized as an unforgeable signature scheme.
-/

/-! ## JSON values

JavaScript values as seen by the SDK.  Composite nodes carry a `ref`
tag: two composites are the same JavaScript object (strict equality
`===`) exactly when their tags coincide.  Numbers are modelled as
integers (the SDK only ever serializes integer indices and strings).
The mutual encoding (instead of nested `List`) keeps every definition
structurally recursive, hence kernel-computable. -/

mutual

inductive Json where
  | null : Json
  | bool (b : Bool) : Json
  | num (n : Int) : Json
  | str (s : String) : Json
  | arr (ref : Nat) (elems : JsonList) : Json
  | obj (ref : Nat) (fields : JsonFields) : Json

inductive JsonList where
  | nil : JsonList
  | cons (hd : Json) (tl : JsonList) : JsonList

inductive JsonFields where
  | fnil : JsonFields
  | fcons (key : String) (val : Json) (tl : JsonFields) : JsonFields

end

/-- The elements of a `JsonList` as a Lean list. -/
def JsonList.toList : JsonList → List Json
  | .nil => []
  | .cons j t => j :: t.toList

/-- The fields of a `JsonFields` as a Lean association list. -/
def JsonFields.toList : JsonFields → List (String × Json)
  | .fnil => []
  | .fcons k v t => (k, v) :: t.toList

/-- Build `JsonFields` from an association list. -/
def JsonFields.ofList : List (String × Json) → JsonFields
  | [] => .fnil
  | (k, v) :: t => .fcons k v (JsonFields.ofList t)

/-- Append two field sequences. -/
def JsonFields.append : JsonFields → JsonFields → JsonFields
  | .fnil, g => g
  | .fcons k v t, g => .fcons k v (t.append g)

/-- The keys of a field sequence, in insertion order. -/
def fieldKeys : JsonFields → List String
  | .fnil => []
  | .fcons k _ t => k :: fieldKeys t

/-- First value stored under `k` (JavaScript property access). -/
def lookupF (k : String) : JsonFields → Option Json
  | .fnil => none
  | .fcons k' v t => if k' = k then some v else lookupF k t

/-- Boolean key-distinctness used by the well-formedness predicate. -/
def nodupKeys : List String → Bool
  | [] => true
  | k :: t => !(t.contains k) && nodupKeys t

/-! ## The canonicalizer (src/unnamed/part_010, `canonicalize`)

`canonicalize` sorts object keys with JavaScript's default
(lexicographic) string sort at every level, keeps array element order,
and serializes primitives as `JSON.stringify` does.  On acyclic values
whose nodes are pairwise distinct references the WeakSet guard of the
source never fires, so the tree embedding below is the exact behaviour
of the source on such values; the WeakSet behaviour itself is embedded
on heaps further down. -/

/-- `JSON.stringify` escape of a single character. -/
def escChar (c : Char) : String :=
  if c = '"' then "\\\""
  else if c = '\\' then "\\\\"
  else if c = '\n' then "\\n"
  else if c = '\t' then "\\t"
  else if c = '\r' then "\\r"
  else if c = (Char.ofNat 8) then "\\b"
  else if c = (Char.ofNat 12) then "\\f"
  else if c.toNat < 32 then
    "\\u00" ++ String.singleton (Nat.digitChar (c.toNat / 16)) ++
      String.singleton (Nat.digitChar (c.toNat % 16))
  else String.singleton c

/-- `JSON.stringify` rendering of a string literal. -/
def jsonQuote (s : String) : String :=
  "\"" ++ String.join (s.data.map escChar) ++ "\""

/-- Lexicographic comparison of character sequences by code point
(JavaScript's default string comparison; identical on ASCII data). -/
def charsLe : List Char → List Char → Bool
  | [], _ => true
  | _ :: _, [] => false
  | a :: as, b :: bs =>
    if a.toNat < b.toNat then true
    else if b.toNat < a.toNat then false
    else charsLe as bs

/-- Lexicographic order on strings. -/
def strLe (a b : String) : Bool := charsLe a.data b.data

/-- JavaScript's default `Array.prototype.sort` on an array of strings:
lexicographic order. -/
def sortStrs (l : List String) : List String :=
  List.insertionSort (fun a b : String => strLe a b = true) l

/-! ### Character-level string primitives

JavaScript's `split` / `startsWith` / `slice` / case folding, defined
over character lists. -/

def splitChars (sep : Char) : List Char → List (List Char)
  | [] => [[]]
  | c :: t =>
    if c = sep then [] :: splitChars sep t
    else
      match splitChars sep t with
      | [] => [[c]]
      | h :: r => (c :: h) :: r

/-- `s.split(sep)`. -/
def jsSplit (sep : Char) (s : String) : List String :=
  (splitChars sep s.data).map (fun l => String.mk l)

def charsPrefixOf : List Char → List Char → Bool
  | [], _ => true
  | _ :: _, [] => false
  | a :: as, b :: bs => (a == b) && charsPrefixOf as bs

/-- `s.startsWith(p)`. -/
def strStartsWith (s p : String) : Bool := charsPrefixOf p.data s.data

/-- `s.slice(n)` for ASCII data. -/
def strDrop (s : String) (n : Nat) : String := String.mk (s.data.drop n)

/-- `s.length` for ASCII data. -/
def strLength (s : String) : Nat := s.data.length

def asciiLower (c : Char) : Char :=
  if 65 ≤ c.toNat && c.toNat ≤ 90 then Char.ofNat (c.toNat + 32) else c

/-- ASCII case folding (enough for the case-insensitive proof-type
regex of the source). -/
def strLower (s : String) : String := String.mk (s.data.map asciiLower)

/-- `/^\d+$/.test(s)`. -/
def isAllDigits (s : String) : Bool :=
  !(s == "") && s.data.all (fun c => 48 ≤ c.toNat && c.toNat ≤ 57)

mutual

/-- Embedding of `canonicalize` on reference-distinct acyclic values:
object keys are sorted, then each value is serialized recursively
(`Object.keys(value).sort()` followed by per-key serialization). -/
def canonicalize : Json → String
  | .null => "null"
  | .bool b => cond b "true" "false"
  | .num n => toString n
  | .str s => jsonQuote s
  | .arr _ xs => "[" ++ String.intercalate "," (canonList xs) ++ "]"
  | .obj _ fs =>
    let entries := canonFields fs
    let ks := sortStrs (entries.map Prod.fst)
    "\x7b" ++ String.intercalate ","
      (ks.map (fun k => jsonQuote k ++ ":" ++ ((entries.lookup k).getD ""))) ++ "\x7d"

/-- Serialized elements of an array, in order. -/
def canonList : JsonList → List String
  | .nil => []
  | .cons j t => canonicalize j :: canonList t

/-- Serialized fields of an object, in insertion order. -/
def canonFields : JsonFields → List (String × String)
  | .fnil => []
  | .fcons k v t => (k, canonicalize v) :: canonFields t

end

/-! ## Logical equality and well-formedness of JSON values -/

mutual

/-- Logical equality of JSON values: identical primitives, pointwise
equal arrays, and objects carrying the same key/value pairs regardless
of key insertion order (reference tags are ignored). -/
def jeq : Json → Json → Bool
  | .null, .null => true
  | .bool a, .bool b => a == b
  | .num a, .num b => a == b
  | .str a, .str b => a == b
  | .arr _ xs, .arr _ ys => jeqList xs ys
  | .obj _ fs, .obj _ gs =>
    (fieldKeys gs).all (fun k => (fieldKeys fs).contains k) && jeqFields fs gs
  | _, _ => false

def jeqList : JsonList → JsonList → Bool
  | .nil, .nil => true
  | .cons x xs, .cons y ys => jeq x y && jeqList xs ys
  | _, _ => false

def jeqFields : JsonFields → JsonFields → Bool
  | .fnil, _ => true
  | .fcons k v t, gs =>
    (match lookupF k gs with
     | some w => jeq v w
     | none => false) && jeqFields t gs

end

mutual

/-- Well-formed JSON value: object keys are distinct at every level
(JavaScript objects cannot carry duplicate keys). -/
def wfJ : Json → Bool
  | .arr _ xs => wfL xs
  | .obj _ fs => nodupKeys (fieldKeys fs) && wfF fs
  | _ => true

def wfL : JsonList → Bool
  | .nil => true
  | .cons j t => wfJ j && wfL t

def wfF : JsonFields → Bool
  | .fnil => true
  | .fcons _ v t => wfJ v && wfF t

end

/-! ## Order lemmas for the key sort -/

theorem charsLe_total : ∀ a b : List Char, charsLe a b = true ∨ charsLe b a = true
  | [], _ => Or.inl rfl
  | _ :: _, [] => Or.inr rfl
  | a :: as, b :: bs => by
    rcases Nat.lt_trichotomy a.toNat b.toNat with h | h | h
    · left; simp [charsLe, h]
    · have h1 : ¬ a.toNat < b.toNat := by omega
      have h2 : ¬ b.toNat < a.toNat := by omega
      rcases charsLe_total as bs with ih | ih
      · left; simp [charsLe, h1, h2, ih]
      · right; simp [charsLe, h1, h2, ih]
    · right; simp [charsLe, h]

theorem charsLe_trans :
    ∀ a b c : List Char, charsLe a b = true → charsLe b c = true → charsLe a c = true
  | [], _, _ => fun _ _ => rfl
  | _ :: _, [], _ => by intro h _; simp [charsLe] at h
  | _ :: _, _ :: _, [] => by intro _ h; simp [charsLe] at h
  | a :: as, b :: bs, c :: cs => by
    intro h1 h2
    by_cases hab : a.toNat < b.toNat
    · by_cases hbc : b.toNat < c.toNat
      · simp [charsLe, Nat.lt_trans hab hbc]
      · by_cases hcb : c.toNat < b.toNat
        · simp [charsLe, hbc, hcb] at h2
        · have hac : a.toNat < c.toNat := by omega
          simp [charsLe, hac]
    · by_cases hba : b.toNat < a.toNat
      · simp [charsLe, hab, hba] at h1
      · by_cases hbc : b.toNat < c.toNat
        · have hac : a.toNat < c.toNat := by omega
          simp [charsLe, hac]
        · by_cases hcb : c.toNat < b.toNat
          · simp [charsLe, hbc, hcb] at h2
          · have h1' : charsLe as bs = true := by simpa [charsLe, hab, hba] using h1
            have h2' : charsLe bs cs = true := by simpa [charsLe, hbc, hcb] using h2
            have hac : ¬ a.toNat < c.toNat := by omega
            have hca : ¬ c.toNat < a.toNat := by omega
            simp [charsLe, hac, hca, charsLe_trans as bs cs h1' h2']

theorem charsLe_antisymm :
    ∀ a b : List Char, charsLe a b = true → charsLe b a = true → a = b
  | [], [] => fun _ _ => rfl
  | [], _ :: _ => by intro _ h; simp [charsLe] at h
  | _ :: _, [] => by intro h _; simp [charsLe] at h
  | a :: as, b :: bs => by
    intro h1 h2
    by_cases hab : a.toNat < b.toNat
    · simp [charsLe, hab, Nat.lt_asymm hab] at h2
    · by_cases hba : b.toNat < a.toNat
      · simp [charsLe, hab, hba] at h1
      · have ht : a.toNat = b.toNat := by omega
        have hc : a = b := Char.ext (UInt32.ext (by simpa [Char.toNat] using ht))
        subst hc
        have h1' : charsLe as bs = true := by simpa [charsLe, hab, hba] using h1
        have h2' : charsLe bs as = true := by simpa [charsLe, hab, hba] using h2
        rw [charsLe_antisymm as bs h1' h2']

instance : IsTotal String (fun a b => strLe a b = true) :=
  ⟨fun a b => charsLe_total a.data b.data⟩

instance : IsTrans String (fun a b => strLe a b = true) :=
  ⟨fun a b c => charsLe_trans a.data b.data c.data⟩

instance : IsAntisymm String (fun a b => strLe a b = true) :=
  ⟨fun _ _ h1 h2 => String.ext (charsLe_antisymm _ _ h1 h2)⟩

/-! ## Lookup and key lemmas -/

theorem nodupKeys_iff : ∀ l : List String, nodupKeys l = true ↔ l.Nodup
  | [] => by simp [nodupKeys]
  | k :: t => by
    simp [nodupKeys, nodupKeys_iff t, List.nodup_cons]

theorem map_fst_canonFields :
    ∀ fs : JsonFields, (canonFields fs).map Prod.fst = fieldKeys fs
  | .fnil => rfl
  | .fcons k v t => by simp [canonFields, fieldKeys, map_fst_canonFields t]

theorem lookupF_mem_keys :
    ∀ (fs : JsonFields) (k : String) (v : Json), lookupF k fs = some v → k ∈ fieldKeys fs
  | .fnil, k, v => by intro h; simp [lookupF] at h
  | .fcons k' v' t, k, v => by
    intro hl
    by_cases h : k' = k
    · simp [fieldKeys, h]
    · simp only [lookupF, if_neg h] at hl
      exact List.mem_cons_of_mem _ (lookupF_mem_keys t k v hl)

theorem mem_keys_lookupF :
    ∀ (fs : JsonFields) (k : String), k ∈ fieldKeys fs → ∃ v, lookupF k fs = some v
  | .fnil, k => by intro h; simp [fieldKeys] at h
  | .fcons k' v' t, k => by
    intro h
    by_cases he : k' = k
    · exact ⟨v', by simp [lookupF, he]⟩
    · have hm : k ∈ fieldKeys t := by
        rcases List.mem_cons.mp h with h1 | h1
        · exact absurd h1.symm he
        · exact h1
      obtain ⟨v, hv⟩ := mem_keys_lookupF t k hm
      exact ⟨v, by simp [lookupF, he, hv]⟩

theorem lookup_canonFields :
    ∀ (fs : JsonFields) (k : String),
      (canonFields fs).lookup k = (lookupF k fs).map canonicalize
  | .fnil, k => rfl
  | .fcons k' v t, k => by
    by_cases h : k' = k
    · subst h; simp [canonFields, List.lookup, lookupF]
    · have h2 : (k == k') = false := beq_eq_false_iff_ne.mpr fun hh => h hh.symm
      simp [canonFields, List.lookup, lookupF, h, h2, lookup_canonFields t k]

theorem wfF_lookup :
    ∀ (fs : JsonFields) (k : String) (v : Json),
      wfF fs = true → lookupF k fs = some v → wfJ v = true
  | .fnil, k, v => by intro _ h; simp [lookupF] at h
  | .fcons k' v' t, k, v => by
    intro hw hl
    simp only [wfF, Bool.and_eq_true] at hw
    by_cases h : k' = k
    · simp only [lookupF, if_pos h] at hl
      cases hl; exact hw.1
    · simp only [lookupF, if_neg h] at hl
      exact wfF_lookup t k v hw.2 hl

theorem jeqFields_lookup :
    ∀ (fs gs : JsonFields) (k : String) (v : Json),
      jeqFields fs gs = true → lookupF k fs = some v →
      ∃ w, lookupF k gs = some w ∧ jeq v w = true
  | .fnil, gs, k, v => by intro _ h; simp [lookupF] at h
  | .fcons k' v' t, gs, k, v => by
    intro hj hl
    simp only [jeqFields, Bool.and_eq_true] at hj
    by_cases h : k' = k
    · simp only [lookupF, if_pos h] at hl
      cases hl
      subst h
      rcases hg : lookupF k' gs with _ | w
      · rw [hg] at hj; simp at hj
      · rw [hg] at hj
        exact ⟨w, rfl, hj.1⟩
    · simp only [lookupF, if_neg h] at hl
      exact jeqFields_lookup t gs k v hj.2 hl

theorem lookupF_sizeOf :
    ∀ (fs : JsonFields) (k : String) (v : Json),
      lookupF k fs = some v → sizeOf v < sizeOf fs
  | .fnil, k, v => by intro h; simp [lookupF] at h
  | .fcons k' v' t, k, v => by
    intro hl
    by_cases h : k' = k
    · simp only [lookupF, if_pos h] at hl
      cases hl
      simp only [JsonFields.fcons.sizeOf_spec]
      omega
    · simp only [lookupF, if_neg h] at hl
      have := lookupF_sizeOf t k v hl
      simp only [JsonFields.fcons.sizeOf_spec]
      omega

/-! ## Invariance of `canonicalize` under key reordering -/

theorem canonPack : ∀ n : Nat,
    (∀ a b : Json, sizeOf a ≤ n → wfJ a = true → wfJ b = true →
      jeq a b = true → canonicalize a = canonicalize b) ∧
    (∀ xs ys : JsonList, sizeOf xs ≤ n → wfL xs = true → wfL ys = true →
      jeqList xs ys = true → canonList xs = canonList ys) := by
  intro n
  induction n using Nat.strong_induction_on with
  | _ n IH =>
    constructor
    · intro a b hs ha hb h
      cases a <;> cases b <;> try simp [jeq] at h
      case null.null => rfl
      case bool.bool => rw [h]
      case num.num => rw [h]
      case str.str => rw [h]
      case arr.arr r xs r' ys =>
        simp only [wfJ] at ha hb
        have hlt : sizeOf xs < n := by
          simp only [Json.arr.sizeOf_spec] at hs; omega
        simp [canonicalize, (IH (sizeOf xs) hlt).2 xs ys le_rfl ha hb h]
      case obj.obj r fs r' gs =>
        simp only [wfJ, Bool.and_eq_true] at ha hb
        obtain ⟨hsub, hjf⟩ := h
        have hjf : jeqFields fs gs = true := hjf
        have hnf : (fieldKeys fs).Nodup := (nodupKeys_iff _).mp ha.1
        have hng : (fieldKeys gs).Nodup := (nodupKeys_iff _).mp hb.1
        have hmem : ∀ x, x ∈ fieldKeys fs ↔ x ∈ fieldKeys gs := by
          intro x
          constructor
          · intro hx
            obtain ⟨v, hv⟩ := mem_keys_lookupF _ _ hx
            obtain ⟨w, hw, _⟩ := jeqFields_lookup _ _ _ _ hjf hv
            exact lookupF_mem_keys _ _ _ hw
          · intro hx
            exact hsub x hx
        have hperm : (fieldKeys fs).Perm (fieldKeys gs) :=
          (List.perm_ext_iff_of_nodup hnf hng).mpr hmem
        have hks : sortStrs (fieldKeys fs) = sortStrs (fieldKeys gs) := by
          apply List.eq_of_perm_of_sorted
            (r := fun a b : String => strLe a b = true)
          · exact ((List.perm_insertionSort _ _).trans hperm).trans
              (List.perm_insertionSort _ _).symm
          · exact List.sorted_insertionSort _ _
          · exact List.sorted_insertionSort _ _
        simp only [canonicalize]
        rw [map_fst_canonFields, map_fst_canonFields, hks]
        have hmap : (sortStrs (fieldKeys gs)).map
            (fun k => jsonQuote k ++ ":" ++ ((canonFields fs).lookup k).getD "") =
            (sortStrs (fieldKeys gs)).map
            (fun k => jsonQuote k ++ ":" ++ ((canonFields gs).lookup k).getD "") := by
          apply List.map_congr_left
          intro k hk
          have hkg : k ∈ fieldKeys gs :=
            (List.perm_insertionSort
              (fun a b : String => strLe a b = true) _).mem_iff.mp hk
          have hkf : k ∈ fieldKeys fs := (hmem k).mpr hkg
          obtain ⟨v, hv⟩ := mem_keys_lookupF _ _ hkf
          obtain ⟨w, hw, hjvw⟩ := jeqFields_lookup _ _ _ _ hjf hv
          have e1 : (canonFields fs).lookup k = some (canonicalize v) := by
            rw [lookup_canonFields, hv]; rfl
          have e2 : (canonFields gs).lookup k = some (canonicalize w) := by
            rw [lookup_canonFields, hw]; rfl
          have hvlt : sizeOf v < n := by
            have := lookupF_sizeOf _ _ _ hv
            simp only [Json.obj.sizeOf_spec] at hs; omega
          have hvw : canonicalize v = canonicalize w :=
            (IH (sizeOf v) hvlt).1 v w le_rfl
              (wfF_lookup _ _ _ ha.2 hv) (wfF_lookup _ _ _ hb.2 hw) hjvw
          rw [e1, e2, hvw]
        rw [hmap]
    · intro xs ys hs ha hb h
      cases xs <;> cases ys <;> try simp [jeqList] at h
      case nil.nil => rfl
      case cons.cons x xs y ys =>
        simp only [wfL, Bool.and_eq_true] at ha hb
        have hx : sizeOf x < n := by
          simp only [JsonList.cons.sizeOf_spec] at hs; omega
        have hxs : sizeOf xs < n := by
          simp only [JsonList.cons.sizeOf_spec] at hs; omega
        simp [canonList, (IH (sizeOf x) hx).1 x y le_rfl ha.1 hb.1 h.1,
          (IH (sizeOf xs) hxs).2 xs ys le_rfl ha.2 hb.2 h.2]

/-- Logically equal well-formed values canonicalize to the identical
string: the object-key sort makes the result independent of key
insertion order. -/
theorem canon_jeq (a b : Json) (ha : wfJ a = true) (hb : wfJ b = true)
    (h : jeq a b = true) : canonicalize a = canonicalize b :=
  (canonPack (sizeOf a)).1 a b le_rfl ha hb h

/-! ## The canonicalizer on heaps: the WeakSet guard

The source keeps a `seen` WeakSet that is only ever added to and never
cleared when a subtree finishes.  To reason about values with shared or
cyclic references, values are embedded as an explicit heap: composite
nodes live in a `Store` keyed by reference, and a value is a primitive
or a reference.  `canonG` is the traversal of the source over such a
heap, with a fuel parameter that makes the recursion structural:
exhausted fuel yields a harmless `.ok` (never the error), so an
`.error ()` outcome is always a genuine "Circular reference" throw. -/

inductive GVal where
  | gnull : GVal
  | gbool (b : Bool) : GVal
  | gnum (n : Int) : GVal
  | gstr (s : String) : GVal
  | gref (r : Nat) : GVal
deriving DecidableEq

inductive GNode where
  | nobj (fields : List (String × GVal)) : GNode
  | narr (elems : List GVal) : GNode
deriving DecidableEq

/-- A heap of composite JavaScript values. -/
abbrev Store := List (Nat × GNode)

def lookupStore (r : Nat) : Store → Option GNode
  | [] => none
  | (q, nd) :: t => if q = r then some nd else lookupStore r t

/-- The child values of a node, in the order the source traverses them
(object fields in sorted-key order, array elements in order). -/
def childVals : GNode → List GVal
  | .narr es => es
  | .nobj fields =>
    (sortStrs (fields.map Prod.fst)).map (fun k => (fields.lookup k).getD .gnull)

/-- Sequential traversal of a list of children, threading the `seen`
set, with the error of any child propagated. -/
def goKids (go : List Nat → GVal → Except Unit (String × List Nat)) :
    List Nat → List GVal → Except Unit (List String × List Nat)
  | seen, [] => .ok ([], seen)
  | seen, v :: vs =>
    match go seen v with
    | .error e => .error e
    | .ok (s, seen') =>
      match goKids go seen' vs with
      | .error e => .error e
      | .ok (ss, seen'') => .ok (s :: ss, seen'')

/-- Embedding of `canonicalize` on heap values: the `sorter` closure of
the source with its `seen` WeakSet.  A composite is looked up in `seen`
before traversal and added to it, and `seen` is never shrunk.
`.error ()` is the "Circular reference" throw. -/
def canonG : Nat → Store → List Nat → GVal → Except Unit (String × List Nat)
  | 0, _, seen, _ => .ok ("", seen)
  | _ + 1, _, seen, .gnull => .ok ("null", seen)
  | _ + 1, _, seen, .gbool b => .ok (cond b "true" "false", seen)
  | _ + 1, _, seen, .gnum n => .ok (toString n, seen)
  | _ + 1, _, seen, .gstr s => .ok (jsonQuote s, seen)
  | f + 1, st, seen, .gref r =>
    if seen.contains r then .error ()
    else
      match lookupStore r st with
      | none => .ok ("null", r :: seen)
      | some (.narr es) =>
        match goKids (canonG f st) (r :: seen) (childVals (.narr es)) with
        | .error e => .error e
        | .ok (ss, seen') =>
          .ok ("[" ++ String.intercalate "," ss ++ "]", seen')
      | some (.nobj fields) =>
        match goKids (canonG f st) (r :: seen) (childVals (.nobj fields)) with
        | .error e => .error e
        | .ok (ss, seen') =>
          .ok ("\x7b" ++ String.intercalate ","
            (((sortStrs (fields.map Prod.fst)).zip ss).map
              (fun p => jsonQuote p.1 ++ ":" ++ p.2)) ++ "\x7d", seen')

/-- `v` reaches the reference `r` through `n` dereference steps. -/
inductive ReachesL (st : Store) : GVal → Nat → Nat → Prop
  | here (r : Nat) : ReachesL st (.gref r) r 0
  | step (q r : Nat) (nd : GNode) (c : GVal) (n : Nat) :
      lookupStore q st = some nd → c ∈ childVals nd →
      ReachesL st c r n → ReachesL st (.gref q) r (n + 1)

theorem goKids_mono (go : List Nat → GVal → Except Unit (String × List Nat))
    (hgo : ∀ seen v s seen', go seen v = .ok (s, seen') → seen ⊆ seen') :
    ∀ (kids : List GVal) (seen : List Nat) (ss : List String) (seen'' : List Nat),
      goKids go seen kids = .ok (ss, seen'') → seen ⊆ seen''
  | [], seen, ss, seen'' => by
    intro h
    simp only [goKids] at h
    cases h
    exact fun _ hx => hx
  | v :: vs, seen, ss, seen'' => by
    intro h
    simp only [goKids] at h
    split at h
    · cases h
    · rename_i s seen' h1
      split at h
      · cases h
      · rename_i ss2 sb h2
        cases h
        exact fun x hx => goKids_mono go hgo vs seen' _ _ h2 (hgo seen v s seen' h1 hx)

theorem canonG_mono :
    ∀ (f : Nat) (st : Store) (seen : List Nat) (v : GVal) (s : String) (seen' : List Nat),
      canonG f st seen v = .ok (s, seen') → seen ⊆ seen' := by
  intro f
  induction f with
  | zero =>
    intro st seen v s seen' h
    simp only [canonG] at h
    cases h
    exact fun _ hx => hx
  | succ f IH =>
    intro st seen v s seen' h
    cases v with
    | gnull => simp only [canonG] at h; cases h; exact fun _ hx => hx
    | gbool b => simp only [canonG] at h; cases h; exact fun _ hx => hx
    | gnum n => simp only [canonG] at h; cases h; exact fun _ hx => hx
    | gstr t => simp only [canonG] at h; cases h; exact fun _ hx => hx
    | gref r =>
      simp only [canonG] at h
      have hsub : seen ⊆ r :: seen := fun x hx => List.mem_cons_of_mem _ hx
      split at h
      · cases h
      · split at h
        · cases h; exact hsub
        · split at h
          · cases h
          · rename_i ss seenb hk
            cases h
            exact fun x hx =>
              goKids_mono (canonG f st) (fun a b c d => IH st a b c d) _ _ _ _ hk (hsub hx)
        · split at h
          · cases h
          · rename_i ss seenb hk
            cases h
            exact fun x hx =>
              goKids_mono (canonG f st) (fun a b c d => IH st a b c d) _ _ _ _ hk (hsub hx)

theorem goKids_err (go : List Nat → GVal → Except Unit (String × List Nat))
    (hgo : ∀ seen v s seen', go seen v = .ok (s, seen') → seen ⊆ seen')
    (r : Nat) (c : GVal)
    (herr : ∀ seen₁, r ∈ seen₁ → go seen₁ c = .error ()) :
    ∀ (kids : List GVal) (seen : List Nat), c ∈ kids → r ∈ seen →
      goKids go seen kids = .error ()
  | [], seen => by intro hm _; cases hm
  | v :: vs, seen => by
    intro hm hr
    rcases List.mem_cons.mp hm with he | ht
    · subst he
      simp only [goKids, herr seen hr]
    · rcases h1 : go seen v with e | p
      · cases e
        simp only [goKids, h1]
      · rcases p with ⟨s, seen'⟩
        simp only [goKids, h1,
          goKids_err go hgo r c herr vs seen' ht (hgo seen v s seen' h1 hr)]

theorem canonG_reaches_err :
    ∀ (n f : Nat) (st : Store) (v : GVal) (r : Nat) (seen : List Nat),
      ReachesL st v r n → r ∈ seen → n < f →
      canonG f st seen v = .error () := by
  intro n
  induction n with
  | zero =>
    intro f st v r seen hre hr hf
    cases hre with
    | here =>
      match f, hf with
      | f' + 1, _ =>
        simp only [canonG]
        rw [if_pos (by simpa using hr)]
  | succ n IH =>
    intro f st v r seen hre hr hf
    cases hre with
    | step q _ nd c _ hl hc hcr =>
      match f, hf with
      | f' + 1, hf =>
        have herr : ∀ seen₁, r ∈ seen₁ → canonG f' st seen₁ c = .error () := by
          intro seen₁ hr1
          exact IH f' st c r seen₁ hcr hr1 (by omega)
        have hmono : ∀ sn w s sn', canonG f' st sn w = .ok (s, sn') → sn ⊆ sn' :=
          fun a b c' d => canonG_mono f' st a b c' d
        have hrk : r ∈ q :: seen := List.mem_cons_of_mem _ hr
        rcases hq : seen.contains q with _ | _
        · cases nd with
          | narr es =>
            simp only [canonG, hq, hl,
              goKids_err (canonG f' st) hmono r c herr (childVals (.narr es))
                (q :: seen) hc hrk]
            rfl
          | nobj fields =>
            simp only [canonG, hq, hl,
              goKids_err (canonG f' st) hmono r c herr (childVals (.nobj fields))
                (q :: seen) hc hrk]
            rfl
        · simp only [canonG]
          rw [if_pos hq]

/-- A reference that participates in a cycle makes the traversal throw:
after `r` is added to the `seen` set, the cycle leads the traversal back
to `r`.  Fuel at least `n + 2` keeps the traversal from being cut short
before the revisit. -/
theorem canonG_cyclic (st : Store) (r : Nat) (nd : GNode) (c : GVal) (n f : Nat)
    (hl : lookupStore r st = some nd) (hc : c ∈ childVals nd)
    (hcr : ReachesL st c r n) (hf : n + 2 ≤ f)
    (seen : List Nat) (hseen : seen.contains r = false) :
    canonG f st seen (.gref r) = .error () := by
  match f, hf with
  | f' + 1, hf =>
    have herr : ∀ seen₁, r ∈ seen₁ → canonG f' st seen₁ c = .error () := by
      intro seen₁ hr1
      exact canonG_reaches_err n f' st c r seen₁ hcr hr1 (by omega)
    have hmono : ∀ sn w s sn', canonG f' st sn w = .ok (s, sn') → sn ⊆ sn' :=
      fun a b c' d => canonG_mono f' st a b c' d
    have hrk : r ∈ r :: seen := List.mem_cons_self r seen
    cases nd with
    | narr es =>
      simp only [canonG, hseen,
        goKids_err (canonG f' st) hmono r c herr (childVals (.narr es)) (r :: seen) hc hrk, hl]
      rfl
    | nobj fields =>
      simp only [canonG, hseen,
        goKids_err (canonG f' st) hmono r c herr (childVals (.nobj fields)) (r :: seen) hc hrk, hl]
      rfl

/-- Node identifiers strictly increase along children: a syntactic
witness that a heap is acyclic. -/
def childRefsIncreasing (st : Store) : Bool :=
  st.all (fun p => (childVals p.2).all (fun v =>
    match v with
    | .gref q => Nat.blt p.1 q
    | _ => true))

theorem lookupStore_mem :
    ∀ (st : Store) (r : Nat) (nd : GNode), lookupStore r st = some nd → (r, nd) ∈ st
  | [], r, nd => by intro h; cases h
  | (q, nd') :: t, r, nd => by
    intro h
    simp only [lookupStore] at h
    by_cases hq : q = r
    · rw [if_pos hq] at h
      cases h
      subst hq
      exact List.mem_cons_self _ _
    · rw [if_neg hq] at h
      exact List.mem_cons_of_mem _ (lookupStore_mem t r nd h)

theorem reaches_le_of_increasing (st : Store) (hinc : childRefsIncreasing st = true) :
    ∀ (n : Nat) (q r : Nat), ReachesL st (.gref q) r n → q ≤ r := by
  intro n
  induction n with
  | zero =>
    intro q r h
    cases h
    exact le_rfl
  | succ n IH =>
    intro q r h
    cases h with
    | step _ _ nd c _ hl hc hcr =>
      cases c with
      | gref q2 =>
        have hq2 : q < q2 := by
          have hm := lookupStore_mem st q nd hl
          have h1 := List.all_eq_true.mp hinc _ hm
          have h2 := List.all_eq_true.mp h1 _ hc
          simpa [Nat.blt_eq] using h2
        exact le_of_lt (lt_of_lt_of_le hq2 (IH q2 r hcr))
      | gnull => cases hcr
      | gbool _ => cases hcr
      | gnum _ => cases hcr
      | gstr _ => cases hcr

/-- In a heap with strictly increasing child references, no reference
cycles back to itself. -/
theorem noCycle_of_increasing (st : Store) (hinc : childRefsIncreasing st = true)
    (r : Nat) (nd : GNode) (c : GVal) (n : Nat)
    (hl : lookupStore r st = some nd) (hc : c ∈ childVals nd) :
    ¬ ReachesL st c r n := by
  intro hcr
  have : ReachesL st (.gref r) r (n + 1) := ReachesL.step r r nd c n hl hc hcr
  cases c with
  | gref q2 =>
    have hq2 : r < q2 := by
      have hm := lookupStore_mem st r nd hl
      have h1 := List.all_eq_true.mp hinc _ hm
      have h2 := List.all_eq_true.mp h1 _ hc
      simpa [Nat.blt_eq] using h2
    have := reaches_le_of_increasing st hinc n q2 r hcr
    omega
  | gnull => cases hcr
  | gbool _ => cases hcr
  | gnum _ => cases hcr
  | gstr _ => cases hcr

/-! ## JavaScript views of JSON values (property access, strict equality)

`jsEntries` lists the own enumerable properties of a value the way
`Object.keys` does (array indices become string keys); `jsStrictEq` is
JavaScript `===`: value equality on primitives, reference-tag equality
on composites. -/

def jsEntries : Json → List (String × Json)
  | .obj _ fs => fs.toList
  | .arr _ xs => (xs.toList.enum).map (fun p => (toString p.1, p.2))
  | _ => []

def jsKeys (j : Json) : List String := (jsEntries j).map Prod.fst

def jsGet (j : Json) (k : String) : Option Json := (jsEntries j).lookup k

/-- `typeof v === "object"` (true for objects, arrays and `null`). -/
def isObjTy : Json → Bool
  | .null => true
  | .arr _ _ => true
  | .obj _ _ => true
  | _ => false

def isNull : Json → Bool
  | .null => true
  | _ => false

/-- JavaScript strict equality `===`. -/
def jsStrictEq : Json → Json → Bool
  | .null, .null => true
  | .bool a, .bool b => a == b
  | .num a, .num b => a == b
  | .str a, .str b => a == b
  | .arr r _, .arr r' _ => r == r'
  | .obj r _, .obj r' _ => r == r'
  | _, _ => false

/-- Embedding of `checkSubObject` (src/src/vc/index.ts, lines 101-116):
non-objects (and `null`) compare with `===`; for a pair of objects every
key of the child must exist in the parent and the two property values
must be `===`-equal.  The check is one level deep: nested composite
values compare by reference, not recursively. -/
def checkSubObject (parentObj childObj : Json) : Bool :=
  if !(isObjTy parentObj) || !(isObjTy childObj) || isNull parentObj || isNull childObj then
    jsStrictEq parentObj childObj
  else
    (jsEntries childObj).all (fun p =>
      (jsKeys parentObj).contains p.1 &&
      (match jsGet parentObj p.1 with
       | some pv => jsStrictEq pv p.2
       | none => false))

/-- `checkSubObject` applied to a possibly-missing parent property
(`parentVC.credentialSubject[key]` may be `undefined`, in which case the
source returns `undefined === childObj`, i.e. `false`). -/
def checkSubObjectO : Option Json → Json → Bool
  | none, _ => false
  | some p, c => checkSubObject p c

/-! ## Keys, signatures and the crypto provider (src/src/crypto/index.ts)

WebCrypto Ed25519 is idealized as an unforgeable signature scheme: a
signature is the pair of the signed message and the signing scalar `d`;
verification accepts exactly when the message matches and the public
`x` coordinate is the one derived from `d` (derivation supplied by the
environment).  JWK sanity checks follow the source. -/

structure Jwk where
  kty : Option String := none
  crv : Option String := none
  x : Option String := none
  d : Option String := none
deriving DecidableEq, Repr

structure Sig where
  msg : String
  d : String
deriving DecidableEq, Repr

inductive KeyAlgorithm where
  | Ed25519 : KeyAlgorithm
  | ES256 : KeyAlgorithm
deriving DecidableEq, Repr

def algString : KeyAlgorithm → String
  | .Ed25519 => "Ed25519"
  | .ES256 => "ES256"

structure Proof where
  type : Option String
  created : String
  proofPurpose : String
  verificationMethod : String
  jws : Sig
deriving DecidableEq, Repr

structure CredentialStatus where
  id : String
  type : String
  revocationBitmapIndex : Int
deriving DecidableEq, Repr

structure VerificationMethod where
  id : String
  type : String
  controller : String
  publicKeyMultibase : Option String := none
  publicKeyJwk : Option Jwk := none
deriving DecidableEq, Repr

structure Service where
  id : String
  type : String
  serviceEndpoint : String
deriving DecidableEq, Repr

/-- DID Document restricted to the fields the verification core reads
(`id`, `verificationMethod`, `service`). -/
structure DidDocument where
  id : String
  verificationMethod : List VerificationMethod := []
  service : List Service := []
deriving DecidableEq, Repr

/-- Typed outcomes, one per `throw` site of the embedded sources. -/
inductive VcError where
  | proofMissing
  | unknownDidMethod
  | unresolvableIssuer
  | notDidKey
  | keyNotFound
  | signatureInvalid
  | revoked
  | expired
  | notYetValid
  | parentInvalid
  | scopeViolation
  | parentProofMissing
  | wrongStatusType
  | invalidRevocationIndex
  | revocationServiceNotFound
  | endpointFormatInvalid
  | emptyBitmapPayload
  | bitmapDecodeFailed
  | parentChainInvalid
  | invalidPrivateKeyMaterial
  | invalidPublicKeyMaterial
  | notImplemented
  | notDidWeb
  | emptyDidWebIdentifier
  | missingDidWebHost
deriving DecidableEq, Repr

/-- JavaScript truthiness of an optional string (`undefined` and `""`
are falsy). -/
def jsTruthyS : Option String → Bool
  | none => false
  | some s => !(s == "")

/-- JavaScript `a || b` on optional strings. -/
def jsOrStr (a b : Option String) : Option String :=
  match a with
  | some s => if s = "" then b else some s
  | none => b

/-- External boundary of the core: network DID resolution (did:web /
ledger methods), the Ed25519 public-key derivation, the
base64 → DEFLATE-inflate → roaring-bitmap decode pipeline, and the
clock / `Date` parser. -/
structure Env where
  resolveExternal : String → String → Option DidDocument
  pubOf : String → String
  decodeBitmap : String → Option (List Int)
  now : Int
  parseDate : String → Option Int
  nowIso : String

/-- Embedding of `sign` (src/src/crypto/index.ts, lines 89-124). -/
def cryptoSign (priv : Jwk) (algOpt : Option KeyAlgorithm) (msg : String) :
    Except VcError Sig :=
  let alg := algOpt.getD .Ed25519
  if !(jsTruthyS priv.kty) then .error .invalidPrivateKeyMaterial
  else
    match alg with
    | .Ed25519 =>
      if (priv.kty == some "OKP") && (priv.crv == some "Ed25519") && jsTruthyS priv.d then
        .ok { msg := msg, d := priv.d.getD "" }
      else .error .invalidPrivateKeyMaterial
    | .ES256 => .error .notImplemented

/-- Embedding of `verify` (src/src/crypto/index.ts, lines 137-169). -/
def cryptoVerify (env : Env) (data : String) (sig : Sig) (pub : Jwk)
    (alg : KeyAlgorithm) : Except VcError Bool :=
  match alg with
  | .Ed25519 =>
    if (pub.kty == some "OKP") && (pub.crv == some "Ed25519") && jsTruthyS pub.x then
      .ok ((sig.msg == data) && (pub.x == some (env.pubOf sig.d)))
    else .error .invalidPublicKeyMaterial
  | .ES256 => .error .notImplemented

/-- Embedding of `algFromProofType` (src/unnamed/part_010, lines 317-322). -/
def algFromProofType : Option String → KeyAlgorithm
  | none => .Ed25519
  | some s => if strLower s == "ed25519signature2020" || s == "" then .Ed25519 else .ES256

/-! ## DID resolution (src/src/did/index.ts, didKey.ts) -/

/-- Embedding of `docForDidKey` (src/src/did/didKey.ts, lines 60-82):
the resolved document carries only `publicKeyMultibase`, never
`publicKeyJwk`. -/
def docForDidKey (did : String) : DidDocument :=
  { id := did,
    verificationMethod := [{
      id := did ++ "#keys-1",
      type := "Ed25519VerificationKey2020",
      controller := did,
      publicKeyMultibase := some (strDrop did 8),
      publicKeyJwk := none }],
    service := [] }

def didKeyResolve (did : String) : Except VcError DidDocument :=
  if strStartsWith did "did:key:" then .ok (docForDidKey did) else .error .notDidKey

/-- Embedding of `resolveDid` (src/src/did/index.ts, lines 19-24):
method dispatch on the second `:`-segment; `did:key` is computed
locally, `did:web` and `did:iota` go to the network (environment). -/
def resolveDid (env : Env) (did : String) : Except VcError DidDocument :=
  match (jsSplit ':' did)[1]? with
  | some m =>
    if m = "key" then didKeyResolve did
    else if m = "web" || m = "iota" then
      match env.resolveExternal m did with
      | some doc => .ok doc
      | none => .error .unresolvableIssuer
    else .error .unknownDidMethod
  | none => .error .unknownDidMethod

/-! ## Verifiable credentials (src/src/vc/index.ts)

The TypeScript `VC` record.  `credentialSubject` is split into the
subject id (`{id: subject, ...}`), the claim fields, and the optionally
embedded parent credential (`credentialSubject.parentVC`), which makes
the chain recursion structural.  `claims` is assumed not to contain the
reserved keys `"id"`/`"parentVC"` wherever that matters (the source
spreads claims into an object that already has `id` and gets
`parentVC`). -/

mutual

inductive VC where
  | mk (context : List String) (type : List String)
       (issuer subject issuanceDate : String)
       (claims : JsonFields) (parent : VCParent)
       (expirationDate : Option String)
       (credentialStatus : Option CredentialStatus)
       (algorithm : Option KeyAlgorithm)
       (revocationBitmapIndex : Option Int)
       (prf : Option Proof) : VC

inductive VCParent where
  | none : VCParent
  | some (vc : VC) : VCParent

end

def VC.context : VC → List String | .mk c _ _ _ _ _ _ _ _ _ _ _ => c
def VC.type : VC → List String | .mk _ t _ _ _ _ _ _ _ _ _ _ => t
def VC.issuer : VC → String | .mk _ _ i _ _ _ _ _ _ _ _ _ => i
def VC.subject : VC → String | .mk _ _ _ s _ _ _ _ _ _ _ _ => s
def VC.issuanceDate : VC → String | .mk _ _ _ _ d _ _ _ _ _ _ _ => d
def VC.claims : VC → JsonFields | .mk _ _ _ _ _ cl _ _ _ _ _ _ => cl
def VC.parent : VC → VCParent | .mk _ _ _ _ _ _ p _ _ _ _ _ => p
def VC.expirationDate : VC → Option String | .mk _ _ _ _ _ _ _ e _ _ _ _ => e
def VC.credentialStatus : VC → Option CredentialStatus | .mk _ _ _ _ _ _ _ _ st _ _ _ => st
def VC.algorithm : VC → Option KeyAlgorithm | .mk _ _ _ _ _ _ _ _ _ a _ _ => a
def VC.revocationBitmapIndex : VC → Option Int | .mk _ _ _ _ _ _ _ _ _ _ r _ => r
def VC.prf : VC → Option Proof | .mk _ _ _ _ _ _ _ _ _ _ _ p => p

/-- Attach (or replace) the `proof` field. -/
def VC.withProof : VC → Option Proof → VC
  | .mk c t i s d cl p e st a r _, pr => .mk c t i s d cl p e st a r pr

/-! ## Serialization of credentials to JSON values

The JSON value a credential denotes when it is canonicalized or when a
property of it is accessed.  Synthesized composite nodes carry
reference tag `0`; the tags are irrelevant to `canonicalize`. -/

def listToJsonList : List Json → JsonList
  | [] => .nil
  | j :: t => .cons j (listToJsonList t)

def strListJson (l : List String) : Json :=
  .arr 0 (listToJsonList (l.map Json.str))

/-- Rendering of a `jws` value inside a serialized credential: the
base64url text of the raw signature bytes.  Ed25519 signatures have a
fixed size, so the rendering does not depend on the signed message. -/
def sigRender (s : Sig) : String := "sig:" ++ s.d

def proofJson (p : Proof) : Json :=
  .obj 0 (JsonFields.ofList (
    (match p.type with | some t => [("type", Json.str t)] | none => []) ++
    [("created", Json.str p.created),
     ("proofPurpose", Json.str p.proofPurpose),
     ("verificationMethod", Json.str p.verificationMethod),
     ("jws", Json.str (sigRender p.jws))]))

def statusJson (cs : CredentialStatus) : Json :=
  .obj 0 (JsonFields.ofList
    [("id", Json.str cs.id), ("type", Json.str cs.type),
     ("revocationBitmapIndex", Json.num cs.revocationBitmapIndex)])

mutual

/-- The full JSON value of a credential object: every present field is
an enumerable property, so it is serialized; the embedded parent is
included verbatim under `credentialSubject.parentVC`. -/
def vcFullJson : VC → Json
  | .mk ctx tp iss subj idate claims parent exp status alg ridx prf =>
    .obj 0 (JsonFields.ofList (
      [("context", strListJson ctx), ("type", strListJson tp),
       ("issuer", Json.str iss), ("issuanceDate", Json.str idate),
       ("subject", Json.str subj),
       ("credentialSubject", csJson subj claims parent)]
      ++ (match exp with | some e => [("expirationDate", Json.str e)] | none => [])
      ++ (match status with | some cs => [("credentialStatus", statusJson cs)] | none => [])
      ++ (match alg with | some a => [("algorithm", Json.str (algString a))] | none => [])
      ++ (match ridx with | some i => [("revocationBitmapIndex", Json.num i)] | none => [])
      ++ (match prf with | some p => [("proof", proofJson p)] | none => [])))

/-- The `credentialSubject` object: `{id: subject, ...claims}` plus the
embedded `parentVC` when present. -/
def csJson (subj : String) (claims : JsonFields) : VCParent → Json
  | .none => .obj 0 (.fcons "id" (.str subj) claims)
  | .some p =>
    .obj 0 (.fcons "id" (.str subj)
      (claims.append (.fcons "parentVC" (vcFullJson p) .fnil)))

end

/-- The `credentialSubject` JSON value of a credential. -/
def csOf (vc : VC) : Json := csJson vc.subject vc.claims vc.parent

/-- The payload rebuilt by `verifySingleVC` (src/src/vc/index.ts, lines
229-237) before signature verification: `context`, `type`, `issuer`,
`issuanceDate`, `subject`, `credentialSubject` and (when truthy)
`expirationDate` — and nothing else. -/
def rebuiltPayloadJson (vc : VC) : Json :=
  .obj 0 (JsonFields.ofList (
    [("context", strListJson vc.context), ("type", strListJson vc.type),
     ("issuer", Json.str vc.issuer), ("issuanceDate", Json.str vc.issuanceDate),
     ("subject", Json.str vc.subject),
     ("credentialSubject", csOf vc)]
    ++ (if jsTruthyS vc.expirationDate then
          [("expirationDate", Json.str (vc.expirationDate.getD ""))]
        else [])))

/-! ## Revocation (src/src/vc/revoke.ts, src/src/vc/index.ts) -/

def REVOCATION_TYPE : String := "RevocationBitmap2022"

/-- Embedding of `revocationStatus` (src/src/vc/index.ts, lines 21-34). -/
def revocationStatus (issuerDid : String) (index : Int) : CredentialStatus :=
  { id := issuerDid ++ "#revocation", type := REVOCATION_TYPE,
    revocationBitmapIndex := index }

/-- Embedding of `isRevokedFromServiceEndpoint`
(src/src/vc/revoke.ts, lines 44-81).  The base64 decode, DEFLATE
inflate and roaring-bitmap deserialization are external libraries,
modelled by `env.decodeBitmap`, which yields the set of indices whose
bit is set. -/
def isRevokedFromServiceEndpoint (env : Env) (serviceEndpoint : String)
    (index : Int) : Except VcError Bool :=
  let pfx := "data:application/octet-stream;base64,"
  if !(strStartsWith serviceEndpoint pfx) then .error .endpointFormatInvalid
  else
    let b64 := strDrop serviceEndpoint (strLength pfx)
    if b64 = "" then .error .emptyBitmapPayload
    else
      match env.decodeBitmap b64 with
      | none => .error .bitmapDecodeFailed
      | some bm => .ok (bm.contains index)

/-- Embedding of `isVcRevoked` (src/src/vc/index.ts, lines 173-199). -/
def isVcRevoked (env : Env) (didDocJson : DidDocument) (credential : VC) :
    Except VcError Bool :=
  match credential.credentialStatus with
  | none => .ok false
  | some status =>
    if !(status.type == REVOCATION_TYPE) then .error .wrongStatusType
    else if status.revocationBitmapIndex < 0 then .error .invalidRevocationIndex
    else
      match didDocJson.service.find?
          (fun s => s.id == status.id && s.type == REVOCATION_TYPE) with
      | none => .error .revocationServiceNotFound
      | some service =>
        isRevokedFromServiceEndpoint env service.serviceEndpoint
          status.revocationBitmapIndex

/-! ## The delegation-chain validator (src/src/vc/index.ts) -/

/-- Embedding of `verifySingleVC` (src/src/vc/index.ts, lines 201-269):
proof presence, issuer resolution, verification-method lookup (requires
`publicKeyJwk`), signature check over the rebuilt payload, revocation
check, and (only with `withMetaChecks`) the expiry / not-yet-valid
metadata checks. -/
def verifySingleVC (env : Env) (withMetaChecks : Bool) (vc : VC) :
    Except VcError (String × Jwk) :=
  match vc.prf with
  | none => .error .proofMissing
  | some proof =>
    match resolveDid env vc.issuer with
    | .error e => .error e
    | .ok didDoc =>
      match didDoc.verificationMethod.find?
          (fun m => m.id == proof.verificationMethod) with
      | none => .error .keyNotFound
      | some vm =>
        match vm.publicKeyJwk with
        | none => .error .keyNotFound
        | some publicKeyJwk =>
          let data := canonicalize (rebuiltPayloadJson vc)
          let alg := algFromProofType proof.type
          match cryptoVerify env data proof.jws publicKeyJwk alg with
          | .error e => .error e
          | .ok false => .error .signatureInvalid
          | .ok true =>
            match isVcRevoked env didDoc vc with
            | .error e => .error e
            | .ok true => .error .revoked
            | .ok false =>
              if withMetaChecks then
                let expired := jsTruthyS vc.expirationDate &&
                  (match env.parseDate (vc.expirationDate.getD "") with
                   | some t => decide (t < env.now)
                   | none => false)
                if expired then .error .expired
                else
                  let future :=
                    match env.parseDate vc.issuanceDate with
                    | some t => decide (env.now < t)
                    | none => false
                  if future then .error .notYetValid
                  else .ok (vc.subject, publicKeyJwk)
              else .ok (vc.subject, publicKeyJwk)

/-- Embedding of `validateParentVC` (src/src/vc/index.ts, lines
271-283): continuity of authority (`parentVC.subject == vc.issuer`) and
the one-level scope check over every credentialSubject key other than
`id` and `parentVC`. -/
def validateParentVC (parentVC vc : VC) : Except VcError Unit :=
  if !(parentVC.subject == vc.issuer) then .error .parentInvalid
  else if (jsEntries (csOf vc)).all (fun e =>
      (e.1 == "id") || (e.1 == "parentVC") ||
      checkSubObjectO (jsGet (csOf parentVC) e.1) e.2) then .ok ()
  else .error .scopeViolation

/-- Embedding of `verifyVC` (src/src/vc/index.ts, lines 288-303):
verify the node, then recurse into `credentialSubject.parentVC` (with
metadata checks at every level) and check parent authority/scope.  The
recursion is structural on the embedded parent; the source has no depth
counter and no depth-related failure. -/
def verifyVC (env : Env) : VC → Except VcError Unit
  | .mk ctx tp iss subj idate claims .none exp status alg ridx prf =>
    match verifySingleVC env true (.mk ctx tp iss subj idate claims .none exp status alg ridx prf) with
    | .error e => .error e
    | .ok _ => .ok ()
  | .mk ctx tp iss subj idate claims (.some p) exp status alg ridx prf =>
    match verifySingleVC env true (.mk ctx tp iss subj idate claims (.some p) exp status alg ridx prf) with
    | .error e => .error e
    | .ok _ =>
      match verifyVC env p with
      | .error e => .error e
      | .ok _ =>
        validateParentVC p (.mk ctx tp iss subj idate claims (.some p) exp status alg ridx prf)

/-- Embedding of `getPublickeyIssuerFromVC` (src/src/vc/index.ts, lines
305-326): per-node verification with `withMetaChecks: false`, recursion
into the parent, and parent authority/scope validation.  `didOri` is
taken from the immediate parent's `didSubject`. -/
def getPublickeyIssuerFromVC (env : Env) :
    VC → Except VcError (String × Jwk × String × Option Jwk)
  | .mk ctx tp iss subj idate claims .none exp status alg ridx prf =>
    match verifySingleVC env false (.mk ctx tp iss subj idate claims .none exp status alg ridx prf) with
    | .error e => .error e
    | .ok (didSubject, publicKeyJwkIssuer) =>
      .ok (didSubject, publicKeyJwkIssuer, didSubject, Option.none)
  | .mk ctx tp iss subj idate claims (.some p) exp status alg ridx prf =>
    match verifySingleVC env false (.mk ctx tp iss subj idate claims (.some p) exp status alg ridx prf) with
    | .error e => .error e
    | .ok (didSubject, publicKeyJwkIssuer) =>
      match getPublickeyIssuerFromVC env p with
      | .error e => .error e
      | .ok parentInfo =>
        if parentInfo.1 = "" then .error .parentChainInvalid
        else
          match validateParentVC p (.mk ctx tp iss subj idate claims (.some p) exp status alg ridx prf) with
          | .error e => .error e
          | .ok _ =>
            .ok (didSubject, publicKeyJwkIssuer, parentInfo.1, some parentInfo.2.1)

/-! ## Credential creation (src/src/vc/index.ts) -/

/-- The parameters of `createVC` (the source reuses the `VC` record and
destructures it with defaults; `none` is an absent field). -/
structure CreateParams where
  issuer : String
  subject : String
  type : Option (List String) := Option.none
  context : Option (List String) := Option.none
  issuanceDate : Option String := Option.none
  expirationDate : Option String := Option.none
  credentialSubject : JsonFields := .fnil
  algorithm : Option KeyAlgorithm := Option.none
  revocationBitmapIndex : Option Int := Option.none

/-- Embedding of `createVC` (src/src/vc/index.ts, lines 53-99): fill
defaults, attach `credentialStatus` when a non-negative index is given,
canonicalize the pre-proof credential (which still carries
`credentialStatus`), sign it, and attach the proof referencing
`<issuer>#keys-1`. -/
def createVC (env : Env) (params : CreateParams) (issuerPrivateKeyJwk : Jwk) :
    Except VcError VC :=
  let tp := params.type.getD ["VerifiableCredential"]
  let ctx := params.context.getD ["https://www.w3.org/2018/credentials/v1"]
  let issuanceDate := params.issuanceDate.getD env.nowIso
  let algorithm := params.algorithm.getD .Ed25519
  let expirationDate :=
    if jsTruthyS params.expirationDate then params.expirationDate else Option.none
  let status : Option CredentialStatus :=
    match params.revocationBitmapIndex with
    | some i => if 0 ≤ i then some (revocationStatus params.issuer i) else Option.none
    | none => Option.none
  let vc : VC := .mk ctx tp params.issuer params.subject issuanceDate
    params.credentialSubject .none expirationDate status Option.none Option.none Option.none
  match cryptoSign issuerPrivateKeyJwk (some algorithm) (canonicalize (vcFullJson vc)) with
  | .error e => .error e
  | .ok sig =>
    .ok (vc.withProof (some {
      type := some (if algorithm = .Ed25519 then "Ed25519Signature2020" else algString algorithm),
      created := issuanceDate,
      proofPurpose := "assertionMethod",
      verificationMethod := params.issuer ++ "#keys-1",
      jws := sig }))

/-- `[...new Set(l)]`: deduplication keeping first occurrences. -/
def jsSetDedupGo : List String → List String → List String
  | [], _ => []
  | x :: t, seen =>
    if seen.contains x then jsSetDedupGo t seen else x :: jsSetDedupGo t (x :: seen)

def jsSetDedup (l : List String) : List String := jsSetDedupGo l []

/-- Embedding of `createDelegatedVC` (src/src/vc/index.ts, lines
126-171): requires the parent's proof, runs the `checkSubObject` scope
check on every top-level claim against the parent's
`credentialSubject` before signing, unions context/type, transfers
authority (`issuer := parentVC.subject`), defaults `expirationDate` to
the parent's, and embeds the parent verbatim. -/
def createDelegatedVC (env : Env) (parentVC : VC) (childSubject : String)
    (claims : JsonFields) (delegatorPrivKey : Jwk)
    (expirationDate : Option String := Option.none)
    (revocationBitmapIndex : Option Int := Option.none) : Except VcError VC :=
  match parentVC.prf with
  | none => .error .parentProofMissing
  | some _ =>
    if !(claims.toList.all (fun e => checkSubObjectO (jsGet (csOf parentVC) e.1) e.2)) then
      .error .scopeViolation
    else
      let childVC : VC := .mk
        (jsSetDedup (parentVC.context ++ ["https://www.w3.org/2018/credentials/v1"]))
        (jsSetDedup (parentVC.type ++ ["DelegatedCredential"]))
        parentVC.subject childSubject env.nowIso claims (.some parentVC)
        (jsOrStr expirationDate parentVC.expirationDate)
        (match revocationBitmapIndex with
         | some i => if 0 ≤ i then some (revocationStatus parentVC.subject i) else Option.none
         | none => Option.none)
        Option.none Option.none Option.none
      match cryptoSign delegatorPrivKey childVC.algorithm (canonicalize (vcFullJson childVC)) with
      | .error e => .error e
      | .ok sig =>
        .ok (childVC.withProof (some {
          type := if (parentVC.algorithm.getD .Ed25519) = .Ed25519 then some "Ed25519Signature2020"
                  else (childVC.algorithm.map algString),
          created := childVC.issuanceDate,
          proofPurpose := "delegation",
          verificationMethod := parentVC.subject ++ "#keys-1",
          jws := sig }))

/-! ## did:web URL derivation (src/src/did/didWeb.ts) -/

/-- Embedding of `didWebToUrl` (src/src/did/didWeb.ts, lines 18-43).
`dec` stands for `decodeURIComponent` (a JavaScript built-in); an
all-digit first path component is treated as a port and appended to the
host without decoding. -/
def didWebToUrl (dec : String → String) (did : String)
    (protocolOpt : Option String := Option.none) : Except VcError String :=
  if !(strStartsWith did "did:web:") then .error .notDidWeb
  else
    let encoded := strDrop did 8
    if encoded = "" then .error .emptyDidWebIdentifier
    else
      match jsSplit ':' encoded with
      | [] => .error .missingDidWebHost
      | p0 :: rest =>
        if p0 = "" then .error .missingDidWebHost
        else
          let protocol := protocolOpt.getD "https"
          let hp : String × List String :=
            match rest with
            | p1 :: rest2 =>
              if isAllDigits p1 then (dec p0 ++ ":" ++ p1, rest2)
              else (dec p0, rest)
            | [] => (dec p0, rest)
          let path := String.intercalate "/" (hp.2.map dec)
          if !(path == "") then
            .ok (protocol ++ "://" ++ hp.1 ++ "/" ++ path ++ "/did.json")
          else
            .ok (protocol ++ "://" ++ hp.1 ++ "/.well-known/did.json")

/-! ## Concrete fixtures

A resolvable issuer `did:web:ex` whose document publishes the Ed25519
public key `x0` (private scalar `d0`) at `did:web:ex#keys-1` and a
RevocationBitmap2022 service.  `env0` resolves it, derives `x0` from
`d0`, decodes the bitmap as empty, and parses no dates (`NaN`
semantics, so metadata checks pass vacuously). -/

def pub0 : Jwk := { kty := some "OKP", crv := some "Ed25519", x := some "x0" }

def priv0 : Jwk :=
  { kty := some "OKP", crv := some "Ed25519", x := some "x0", d := some "d0" }

def doc0 : DidDocument :=
  { id := "did:web:ex",
    verificationMethod := [{ id := "did:web:ex#keys-1",
                             type := "Ed25519VerificationKey2020",
                             controller := "did:web:ex",
                             publicKeyJwk := some pub0 }],
    service := [{ id := "did:web:ex#revocation",
                  type := "RevocationBitmap2022",
                  serviceEndpoint := "data:application/octet-stream;base64,AAA" }] }

def env0 : Env :=
  { resolveExternal := fun _ did => if did = "did:web:ex" then some doc0 else none,
    pubOf := fun d => if d = "d0" then "x0" else "",
    decodeBitmap := fun _ => some [],
    now := 100,
    parseDate := fun _ => none,
    nowIso := "t0" }

theorem intercalate_go_prefix :
    ∀ (l : List String) (acc : String), ∃ t, String.intercalate.go acc "/" l = acc ++ t
  | [], acc => ⟨"", by simp [String.intercalate.go]⟩
  | b :: l, acc => by
    obtain ⟨t, ht⟩ := intercalate_go_prefix l (acc ++ "/" ++ b)
    refine ⟨"/" ++ b ++ t, ?_⟩
    show String.intercalate.go (acc ++ "/" ++ b) "/" l = _
    rw [ht]
    simp [String.append_assoc]

theorem intercalate_cons_ne (a : String) (l : List String) (ha : a ≠ "") :
    String.intercalate "/" (a :: l) ≠ "" := by
  obtain ⟨t, ht⟩ := intercalate_go_prefix l a
  intro h
  apply ha
  have h2 : String.intercalate "/" (a :: l) = a ++ t := ht
  rw [h2] at h
  have h3 := congrArg String.data h
  rw [String.data_append] at h3
  exact String.ext (List.append_eq_nil.mp h3).1

/-- C7: `didWebToUrl` is the pure `did:web` → URL derivation:
`did:web:<host>[:<port>][:<seg>...]` maps to
`<protocol>://<host>[:<port>]/<seg>/.../did.json` when path segments are
present and to `<protocol>://<host>[:<port>]/.well-known/did.json`
otherwise, with an all-digit (nonempty) first path component treated as
a port; in particular `did:web:example.com` maps to
`https://example.com/.well-known/did.json` and
`did:web:example.com:users:alice` to
`https://example.com/users/alice/did.json`.  `dec` is
`decodeURIComponent` (identity on the escape-free inputs). -/
theorem C7_didWebToUrl :
    (∀ dec : String → String, dec "example.com" = "example.com" →
      didWebToUrl dec "did:web:example.com" Option.none =
        .ok "https://example.com/.well-known/did.json")
    ∧ (∀ dec : String → String, dec "example.com" = "example.com" →
        dec "users" = "users" → dec "alice" = "alice" →
        didWebToUrl dec "did:web:example.com:users:alice" Option.none =
          .ok "https://example.com/users/alice/did.json")
    ∧ (∀ (dec : String → String) (did host : String) (segs : List String)
        (proto : Option String),
        strStartsWith did "did:web:" = true →
        jsSplit ':' (strDrop did 8) = host :: segs →
        host ≠ "" →
        (∀ s ∈ segs, dec s ≠ "") →
        (match segs with | [] => True | p1 :: _ => isAllDigits p1 = false) →
        didWebToUrl dec did proto = .ok (
          match segs with
          | [] => proto.getD "https" ++ "://" ++ dec host ++ "/.well-known/did.json"
          | _ => proto.getD "https" ++ "://" ++ dec host ++ "/" ++
              String.intercalate "/" (segs.map dec) ++ "/did.json"))
    ∧ (∀ (dec : String → String) (did host port : String) (segs : List String)
        (proto : Option String),
        strStartsWith did "did:web:" = true →
        jsSplit ':' (strDrop did 8) = host :: port :: segs →
        host ≠ "" →
        isAllDigits port = true →
        (∀ s ∈ segs, dec s ≠ "") →
        didWebToUrl dec did proto = .ok (
          match segs with
          | [] => proto.getD "https" ++ "://" ++ dec host ++ ":" ++ port ++
              "/.well-known/did.json"
          | _ => proto.getD "https" ++ "://" ++ dec host ++ ":" ++ port ++ "/" ++
              String.intercalate "/" (segs.map dec) ++ "/did.json")) := by
  refine ⟨?_, ?_, ?_, ?_⟩
  · intro dec h
    have h0 : "/".intercalate ([] : List String) = "" := rfl
    simp [didWebToUrl, jsSplit, splitChars, strDrop, strStartsWith, charsPrefixOf, h, h0]
  · intro dec h1 h2 h3
    have hud : isAllDigits "users" = false := rfl
    have hgo : String.intercalate.go "users" "/" ["alice"] = "users/alice" := rfl
    simp [didWebToUrl, jsSplit, splitChars, strDrop, strStartsWith, charsPrefixOf,
      h1, h2, h3, hud, String.intercalate, hgo]
  · intro dec did host segs proto h1 h2 h3 hdec h5
    have hne : strDrop did 8 ≠ "" := by
      intro he
      rw [he] at h2
      simp [jsSplit, splitChars] at h2
      exact h3 h2.1.symm
    simp only [didWebToUrl, h1, Bool.not_true, Bool.false_eq_true, if_false, h2, if_neg hne,
      if_neg h3]
    cases segs with
    | nil =>
      have h0 : "/".intercalate ([] : List String) = "" := rfl
      simp [h0]
    | cons p1 rest =>
      simp only at h5
      have hd1 : dec p1 ≠ "" := hdec p1 (List.mem_cons_self _ _)
      have hpath := intercalate_cons_ne (dec p1) (List.map dec rest) hd1
      simp [h5, hpath]
  · intro dec did host port segs proto h1 h2 h3 hport hdec
    have hne : strDrop did 8 ≠ "" := by
      intro he
      rw [he] at h2
      simp [jsSplit, splitChars] at h2
    simp only [didWebToUrl, h1, Bool.not_true, Bool.false_eq_true, if_false, h2, if_neg hne,
      if_neg h3, hport]
    cases segs with
    | nil =>
      have h0 : "/".intercalate ([] : List String) = "" := rfl
      simp [h0, String.append_assoc]
    | cons p1 rest =>
      have hd1 : dec p1 ≠ "" := hdec p1 (List.mem_cons_self _ _)
      have hpath := intercalate_cons_ne (dec p1) (List.map dec rest) hd1
      simp [hpath, String.append_assoc]

theorem C7_didWebToUrl_witness :
    didWebToUrl (fun s => s) "did:web:example.com" Option.none =
      .ok "https://example.com/.well-known/did.json" ∧
    didWebToUrl (fun s => s) "did:web:example.com:users:alice" Option.none =
      .ok "https://example.com/users/alice/did.json" ∧
    didWebToUrl (fun s => s) "did:web:example.com:3000:x" (some "https") =
      .ok "https://example.com:3000/x/did.json" :=
  ⟨C7_didWebToUrl.1 (fun s => s) rfl,
   C7_didWebToUrl.2.1 (fun s => s) rfl rfl rfl,
   C7_didWebToUrl.2.2.2 (fun s => s) "did:web:example.com:3000:x" "example.com" "3000"
     ["x"] (some "https") rfl rfl (by decide) rfl (by decide)⟩

/-- C10: a VC whose issuer is a `did:key` DID fails verification at the
key-lookup step with the key-not-found error, regardless of the
signature: `docForDidKey` publishes only `publicKeyMultibase`, while the
validator accepts a verification method only with `publicKeyJwk`. -/
theorem C10_didKey_keyNotFound (env : Env) (vc : VC) (w : Bool) (prf : Proof)
    (hp : vc.prf = some prf)
    (hk : strStartsWith vc.issuer "did:key:" = true)
    (hm : (jsSplit ':' vc.issuer)[1]? = some "key") :
    verifySingleVC env w vc = .error .keyNotFound ∧
    verifyVC env vc = .error .keyNotFound := by
  have hs : ∀ w' : Bool, verifySingleVC env w' vc = .error .keyNotFound := by
    intro w'
    unfold verifySingleVC resolveDid didKeyResolve
    rw [hp, hm, hk]
    rcases hb : ((vc.issuer ++ "#keys-1" : String) == prf.verificationMethod) with _ | _ <;>
      simp [docForDidKey, List.find?, hb]
  refine ⟨hs w, ?_⟩
  cases vc with
  | mk ctx tp iss subj idate claims parent exp status alg ridx pf =>
    cases parent with
    | none => simp only [verifyVC, hs true]
    | some p => simp only [verifyVC, hs true]

def didKeyProof0 : Proof :=
  { type := some "Ed25519Signature2020", created := "t0",
    proofPurpose := "assertionMethod",
    verificationMethod := "did:key:zAbc#keys-1",
    jws := { msg := "m", d := "d0" } }

def didKeyVC0 : VC :=
  .mk [] [] "did:key:zAbc" "did:web:ex" "t0" .fnil .none Option.none Option.none
    Option.none Option.none (some didKeyProof0)

theorem C10_didKey_keyNotFound_witness :
    verifySingleVC env0 true didKeyVC0 = .error .keyNotFound :=
  (C10_didKey_keyNotFound env0 didKeyVC0 true didKeyProof0 rfl rfl rfl).1

/-- C6: for a credentialStatus of type RevocationBitmap2022 with a
valid index, `isVcRevoked` fails with the revocation-service-not-found
error when `didDocument.service[]` has no entry matching both the
status `id` and the type; otherwise the matching entry's
`serviceEndpoint` data URI payload is decoded (base64 → DEFLATE inflate
→ portable roaring bitmap, the external pipeline `env.decodeBitmap`)
and the result is `true` exactly when the bit at
`revocationBitmapIndex` is set. -/
theorem C6_isVcRevoked (env : Env) (doc : DidDocument) (vc : VC)
    (status : CredentialStatus)
    (hst : vc.credentialStatus = some status)
    (hty : status.type = "RevocationBitmap2022")
    (hidx : 0 ≤ status.revocationBitmapIndex) :
    (doc.service.find? (fun s => s.id == status.id && s.type == "RevocationBitmap2022") =
        Option.none →
      isVcRevoked env doc vc = .error .revocationServiceNotFound)
    ∧ (∀ (s : Service) (bm : List Int),
      doc.service.find? (fun s => s.id == status.id && s.type == "RevocationBitmap2022") =
        some s →
      strStartsWith s.serviceEndpoint "data:application/octet-stream;base64," = true →
      strDrop s.serviceEndpoint (strLength "data:application/octet-stream;base64,") ≠ "" →
      env.decodeBitmap
        (strDrop s.serviceEndpoint (strLength "data:application/octet-stream;base64,")) =
        some bm →
      isVcRevoked env doc vc = .ok (bm.contains status.revocationBitmapIndex)) := by
  have hty' : (status.type == REVOCATION_TYPE) = true := by
    simp [REVOCATION_TYPE, hty]
  have hlt : ¬ (status.revocationBitmapIndex < 0) := by omega
  constructor
  · intro hfind
    unfold isVcRevoked
    rw [hst]
    simp only [hty', Bool.not_true, Bool.false_eq_true, if_false, if_neg hlt, REVOCATION_TYPE,
      hfind]
    simp [hty]
  · intro s bm hfind hpfx hne hdec
    unfold isVcRevoked isRevokedFromServiceEndpoint
    rw [hst]
    simp only [hty', Bool.not_true, Bool.false_eq_true, if_false, if_neg hlt, REVOCATION_TYPE,
      hfind, hpfx, hdec, if_neg hne]
    simp [hty]

def revokedStatus0 : CredentialStatus :=
  { id := "did:web:ex#revocation", type := "RevocationBitmap2022",
    revocationBitmapIndex := 5 }

def statusVC0 : VC :=
  .mk [] [] "did:web:ex" "did:web:ex" "t0" .fnil .none Option.none (some revokedStatus0)
    Option.none Option.none Option.none

/-- Environment whose bitmap pipeline decodes the fixture payload to a
bitmap with exactly bit 5 set. -/
def env5 : Env := { env0 with decodeBitmap := fun _ => some [5] }

theorem C6_isVcRevoked_witness :
    isVcRevoked env5 doc0 statusVC0 = .ok true ∧
    isVcRevoked env0 doc0 statusVC0 = .ok false ∧
    isVcRevoked env5 { doc0 with service := [] } statusVC0 =
      .error .revocationServiceNotFound := by
  refine ⟨?_, ?_, ?_⟩
  · exact (C6_isVcRevoked env5 doc0 statusVC0 revokedStatus0 rfl rfl (by decide)).2
      (doc0.service.get ⟨0, by decide⟩) [5] rfl rfl (by decide) rfl
  · exact (C6_isVcRevoked env0 doc0 statusVC0 revokedStatus0 rfl rfl (by decide)).2
      (doc0.service.get ⟨0, by decide⟩) [] rfl rfl (by decide) rfl
  · exact (C6_isVcRevoked env5 { doc0 with service := [] } statusVC0 revokedStatus0 rfl rfl
      (by decide)).1 rfl

theorem canonList_toList : ∀ xs : JsonList, canonList xs = xs.toList.map canonicalize
  | .nil => rfl
  | .cons j t => by simp [canonList, JsonList.toList, canonList_toList t]

/-- C2: `canonicalize` returns the identical string on logically equal
values (same key/value pairs at every level, regardless of key
insertion order); object keys are serialized in lexicographically
sorted order at every nesting level; array element order is preserved;
and a value containing a circular reference (a reference from which a
nonempty dereference path leads back to itself) makes the traversal
throw the circular-reference error. -/
theorem C2_canonicalize :
    (∀ a b : Json, wfJ a = true → wfJ b = true → jeq a b = true →
      canonicalize a = canonicalize b)
    ∧ (∀ (r : Nat) (fs : JsonFields),
        canonicalize (.obj r fs) = "\x7b" ++ String.intercalate ","
          ((sortStrs (fieldKeys fs)).map
            (fun k => jsonQuote k ++ ":" ++ ((lookupF k fs).map canonicalize).getD "")) ++ "\x7d"
        ∧ List.Sorted (fun a b : String => strLe a b = true) (sortStrs (fieldKeys fs)))
    ∧ (∀ (r : Nat) (xs : JsonList),
        canonicalize (.arr r xs) =
          "[" ++ String.intercalate "," (xs.toList.map canonicalize) ++ "]")
    ∧ (∀ (st : Store) (r : Nat) (nd : GNode) (c : GVal) (n f : Nat),
        lookupStore r st = some nd → c ∈ childVals nd → ReachesL st c r n →
        n + 2 ≤ f → canonG f st [] (.gref r) = .error ()) := by
  refine ⟨canon_jeq, ?_, ?_, ?_⟩
  · intro r fs
    constructor
    · simp only [canonicalize]
      rw [map_fst_canonFields]
      have hmap : (sortStrs (fieldKeys fs)).map
          (fun k => jsonQuote k ++ ":" ++ ((canonFields fs).lookup k).getD "") =
          (sortStrs (fieldKeys fs)).map
          (fun k => jsonQuote k ++ ":" ++ ((lookupF k fs).map canonicalize).getD "") := by
        apply List.map_congr_left
        intro k _
        rw [lookup_canonFields]
      rw [hmap]
    · exact List.sorted_insertionSort _ _
  · intro r xs
    simp [canonicalize, canonList_toList]
  · intro st r nd c n f hl hc hcr hf
    exact canonG_cyclic st r nd c n f hl hc hcr hf [] rfl

def jsonA : Json := .obj 1 (.fcons "a" (.num 1) (.fcons "b" (.str "x") .fnil))
def jsonB : Json := .obj 2 (.fcons "b" (.str "x") (.fcons "a" (.num 1) .fnil))

/-- A one-node heap whose object refers back to itself. -/
def cycStore : Store := [(0, .nobj [("self", .gref 0)])]

theorem C2_canonicalize_witness :
    canonicalize jsonA = canonicalize jsonB ∧
    canonG 5 cycStore [] (.gref 0) = .error () :=
  ⟨C2_canonicalize.1 jsonA jsonB rfl rfl rfl,
   C2_canonicalize.2.2.2 cycStore 0 (.nobj [("self", .gref 0)]) (.gref 0) 0 5 rfl
     (by decide) (.here 0) (by omega)⟩

/-- A two-node acyclic heap in which node 1 is reachable along two
distinct paths (fields `"a"` and `"b"` of node 0): a shared subtree,
not a cycle. -/
def sharedStore : Store :=
  [(0, .nobj [("a", .gref 1), ("b", .gref 1)]), (1, .nobj [])]

/-- C9: on an acyclic value in which the same object reference is
reachable along two distinct paths, `canonicalize` throws the
circular-reference error: the `seen` set only grows during traversal
and is never cleared when a subtree finishes, so the second visit of
the shared node trips the guard.  The heap is acyclic: child
references strictly increase, so no reference reaches itself. -/
theorem C9_shared_subtree_throws :
    childRefsIncreasing sharedStore = true
    ∧ (∀ (r : Nat) (nd : GNode) (c : GVal) (n : Nat),
        lookupStore r sharedStore = some nd → c ∈ childVals nd →
        ¬ ReachesL sharedStore c r n)
    ∧ canonG 10 sharedStore [] (.gref 0) = .error () :=
  ⟨rfl,
   fun r nd c n hl hc => noCycle_of_increasing sharedStore rfl r nd c n hl hc,
   rfl⟩

/-! ## C3: the scope check -/

mutual

/-- Structural subset as the specification words it: primitives and
arrays must be (logically) equal; for objects, every key present in the
child's value must exist in the parent's value with an equal or
recursively-subset value. -/
def structSubset (p c : Json) : Bool :=
  match p, c with
  | .obj _ pfs, .obj _ cfs => structSubsetFields pfs cfs
  | _, _ => jeq p c

def structSubsetFields (pfs : JsonFields) : JsonFields → Bool
  | .fnil => true
  | .fcons k v t =>
    (match lookupF k pfs with
     | some pv => structSubset pv v
     | none => false) && structSubsetFields pfs t

end

/-- One-level containment as `checkSubObject` actually decides it
(stated from the amended claim): a missing parent property fails; if
either value is a non-object (or `null`), the two values must be
`===`-equal; otherwise every key of the child value must exist in the
parent value with a `===`-equal property value — nested composites
compare by reference, not recursively. -/
def specOneLevelContains (pv? : Option Json) (c : Json) : Bool :=
  match pv? with
  | none => false
  | some p =>
    if isObjTy p && !(isNull p) && isObjTy c && !(isNull c) then
      (jsEntries c).all (fun e =>
        match jsGet p e.1 with
        | some pv => jsStrictEq pv e.2
        | none => false)
    else jsStrictEq p c

def ceParentProof : Proof :=
  { type := some "Ed25519Signature2020", created := "t0",
    proofPurpose := "assertionMethod",
    verificationMethod := "did:web:root#keys-1",
    jws := { msg := "m", d := "droot" } }

/-- Parent claims: `perm ↦ {b: {c: 1}, d: 2}`. -/
def ceParentClaims : JsonFields :=
  .fcons "perm"
    (.obj 10 (.fcons "b" (.obj 11 (.fcons "c" (.num 1) .fnil))
      (.fcons "d" (.num 2) .fnil))) .fnil

def ceParentVC : VC :=
  .mk [] [] "did:web:root" "did:web:ex" "t0" ceParentClaims .none Option.none
    Option.none Option.none Option.none (some ceParentProof)

/-- Child claims: `perm ↦ {b: {c: 1}}`, a freshly built value — a
recursive structural subset of the parent claim. -/
def ceChildClaims : JsonFields :=
  .fcons "perm" (.obj 20 (.fcons "b" (.obj 21 (.fcons "c" (.num 1) .fnil)) .fnil)) .fnil

/-- C3 counterexample: every top-level child claim is a recursive
structural subset of the parent's corresponding claim, yet
`createDelegatedVC` raises the scope violation: `checkSubObject`
compares nested composite values with `===` (reference equality)
instead of recursing. -/
theorem C3_counterexample :
    ceChildClaims.toList.all (fun e =>
      match lookupF e.1 ceParentClaims with
      | some pv => structSubset pv e.2
      | none => false) = true
    ∧ createDelegatedVC env0 ceParentVC "did:web:c" ceChildClaims priv0
        Option.none Option.none = .error .scopeViolation :=
  ⟨rfl, rfl⟩

theorem lookup_mem_keys' :
    ∀ (l : List (String × Json)) (k : String) (v : Json),
      l.lookup k = some v → k ∈ l.map Prod.fst
  | [], k, v => by intro h; cases h
  | (k', v') :: t, k, v => by
    intro h
    simp only [List.lookup] at h
    rcases hb : (k == k') with _ | _
    · rw [hb] at h
      exact List.mem_cons_of_mem _ (lookup_mem_keys' t k v h)
    · simp [beq_iff_eq] at hb
      simp [hb]

theorem cryptoSign_ne_scope (priv : Jwk) (alg : Option KeyAlgorithm) (msg : String) :
    cryptoSign priv alg msg ≠ .error .scopeViolation := by
  intro h
  have halg : alg.getD KeyAlgorithm.Ed25519 = KeyAlgorithm.Ed25519 ∨
      alg.getD KeyAlgorithm.Ed25519 = KeyAlgorithm.ES256 := by
    rcases alg.getD KeyAlgorithm.Ed25519 with _ | _
    · exact Or.inl rfl
    · exact Or.inr rfl
  unfold cryptoSign at h
  rcases halg with ha | ha <;> rw [ha] at h <;> split at h
  · cases h
  · split at h
    · cases h
    · cases h
  · cases h
  · cases h

/-- C3 amended: the scope check of `createDelegatedVC` is one level
deep: for every top-level key `k` of `claims`, the call passes the
check exactly when `claims[k]` is one-level-contained in
`parentVC.credentialSubject[k]` — a missing parent property fails;
non-object values must be `===`-equal; for objects, every key of the
child value must exist in the parent value with a `===`-equal value,
nested composites comparing by reference, not recursively.  A
violation raises the scope-violation error before any signing. -/
theorem C3_amended :
    (∀ (pv? : Option Json) (c : Json),
      checkSubObjectO pv? c = specOneLevelContains pv? c)
    ∧ (∀ (env : Env) (parentVC : VC) (childSubject : String) (claims : JsonFields)
        (priv : Jwk) (exp : Option String) (ridx : Option Int) (pprf : Proof),
        parentVC.prf = some pprf →
        ((claims.toList.all (fun e =>
            specOneLevelContains (jsGet (csOf parentVC) e.1) e.2) = false →
          createDelegatedVC env parentVC childSubject claims priv exp ridx =
            .error .scopeViolation)
        ∧ (claims.toList.all (fun e =>
            specOneLevelContains (jsGet (csOf parentVC) e.1) e.2) = true →
          createDelegatedVC env parentVC childSubject claims priv exp ridx ≠
            .error .scopeViolation))) := by
  have hpt : ∀ (pv? : Option Json) (c : Json),
      checkSubObjectO pv? c = specOneLevelContains pv? c := by
    intro pv? c
    cases pv? with
    | none => rfl
    | some p =>
      have hpoint : ∀ e : String × Json,
          (decide (e.1 ∈ jsKeys p) &&
            (match jsGet p e.1 with
             | some pv => jsStrictEq pv e.2
             | none => false)) =
          (match jsGet p e.1 with
           | some pv => jsStrictEq pv e.2
           | none => false) := by
        intro e
        rcases hg : jsGet p e.1 with _ | pv
        · simp
        · have hm : e.1 ∈ jsKeys p := lookup_mem_keys' _ _ _ hg
          simp [hm]
      cases p <;> cases c <;>
        simp [checkSubObjectO, checkSubObject, specOneLevelContains, isObjTy, isNull, hpoint]
  refine ⟨hpt, ?_⟩
  intro env parentVC childSubject claims priv exp ridx pprf hp
  have hall : (claims.toList.all (fun e => checkSubObjectO (jsGet (csOf parentVC) e.1) e.2)) =
      claims.toList.all (fun e => specOneLevelContains (jsGet (csOf parentVC) e.1) e.2) := by
    simp only [hpt]
  constructor
  · intro hfalse
    unfold createDelegatedVC
    rw [hp, hall, hfalse]
    rfl
  · intro htrue
    unfold createDelegatedVC
    rw [hp, hall, htrue]
    simp only [Bool.not_true, Bool.false_eq_true, if_false]
    split
    · rename_i e hsig
      intro hcontra
      cases hcontra
      exact cryptoSign_ne_scope _ _ _ hsig
    · intro h; cases h

def roleParentVC : VC :=
  .mk [] [] "did:web:root" "did:web:ex" "t0" (.fcons "role" (.str "admin") .fnil)
    .none Option.none Option.none Option.none Option.none (some ceParentProof)

theorem C3_amended_witness :
    createDelegatedVC env0 roleParentVC "did:web:c" (.fcons "role" (.str "user") .fnil)
      priv0 Option.none Option.none = .error .scopeViolation ∧
    createDelegatedVC env0 roleParentVC "did:web:c" (.fcons "role" (.str "admin") .fnil)
      priv0 Option.none Option.none ≠ .error .scopeViolation :=
  ⟨(C3_amended.2 env0 roleParentVC "did:web:c" (.fcons "role" (.str "user") .fnil)
      priv0 Option.none Option.none ceParentProof rfl).1 rfl,
   (C3_amended.2 env0 roleParentVC "did:web:c" (.fcons "role" (.str "admin") .fnil)
      priv0 Option.none Option.none ceParentProof rfl).2 rfl⟩

/-! ## C8: delegated expiration dates -/

/-- C8 amended: the child's `expirationDate` is
`expirationDate || parentVC.expirationDate`: when the argument is
omitted (or empty) it defaults to the parent's, and when a nonempty
override is given the child carries the override verbatim — the source
never compares it against the parent's date, so a later override
extends beyond the parent's expiration. -/
theorem C8_delegated_expiration (env : Env) (parentVC : VC) (childSubject : String)
    (claims : JsonFields) (priv : Jwk) (exp : Option String) (ridx : Option Int)
    (child : VC)
    (h : createDelegatedVC env parentVC childSubject claims priv exp ridx = .ok child) :
    child.expirationDate = jsOrStr exp parentVC.expirationDate
    ∧ (exp = Option.none → child.expirationDate = parentVC.expirationDate)
    ∧ (∀ e, exp = some e → e ≠ "" → child.expirationDate = some e) := by
  unfold createDelegatedVC at h
  split at h
  · cases h
  · split at h
    · cases h
    · simp only [] at h
      split at h
      all_goals try split at h
      all_goals try split at h
      all_goals try split at h
      all_goals cases h
      all_goals refine ⟨rfl, ?_, ?_⟩
      all_goals first
        | (intro he; subst he; rfl)
        | (intro e he hne; subst he;
           simp [VC.expirationDate, VC.withProof, jsOrStr, hne])

def expParentVC : VC :=
  .mk [] [] "did:web:root" "did:web:ex" "t0" .fnil .none (some "2030")
    Option.none Option.none Option.none (some ceParentProof)

/-- The environment's date parser on the two dates of the
counterexample. -/
def env8 : Env :=
  { env0 with parseDate := fun s =>
      if s = "2030" then some 2030 else if s = "2040" then some 2040 else none }

def c8result : Except VcError VC :=
  createDelegatedVC env8 expParentVC "did:web:c" .fnil priv0 (some "2040") Option.none

def c8child : VC :=
  match c8result with
  | .ok c => c
  | .error _ => expParentVC

/-- C8 counterexample: overriding with a later date extends the child's
expiration beyond the parent's: the parent expires at 2030, the child
is created with an explicit 2040 override and carries 2040. -/
theorem C8_counterexample :
    c8result = .ok c8child
    ∧ expParentVC.expirationDate = some "2030"
    ∧ c8child.expirationDate = some "2040"
    ∧ env8.parseDate "2030" = some 2030
    ∧ env8.parseDate "2040" = some 2040
    ∧ (2030 : Int) < 2040 :=
  ⟨rfl, rfl, rfl, rfl, rfl, by omega⟩

theorem C8_delegated_expiration_witness :
    c8child.expirationDate = jsOrStr (some "2040") expParentVC.expirationDate :=
  (C8_delegated_expiration env8 expParentVC "did:web:c" .fnil priv0 (some "2040")
    Option.none c8child rfl).1

/-! ## C5: chain depth -/

mutual

/-- Number of credential nodes along the embedded `parentVC` chain. -/
def chainDepth : VC → Nat
  | .mk _ _ _ _ _ _ p _ _ _ _ _ => 1 + chainDepthP p

def chainDepthP : VCParent → Nat
  | .none => 0
  | .some v => chainDepth v

end

/-- A proof over the very payload that `verifySingleVC` rebuilds, signed
with the key `d0` whose public key is published at
`did:web:ex#keys-1`. -/
def sigProof (v : VC) : Proof :=
  { type := some "Ed25519Signature2020", created := "t0",
    proofPurpose := "assertionMethod",
    verificationMethod := "did:web:ex#keys-1",
    jws := { msg := canonicalize (rebuiltPayloadJson v), d := "d0" } }

def attachSig (v : VC) : VC := v.withProof (some (sigProof v))

/-- A self-issued delegation chain of `n + 1` credential nodes, each
issued by `did:web:ex` to `did:web:ex` and correctly signed. -/
def mkChain : Nat → VC
  | 0 => attachSig (.mk ["c"] ["VerifiableCredential"] "did:web:ex" "did:web:ex"
      "t0" .fnil .none Option.none Option.none Option.none Option.none Option.none)
  | n + 1 => attachSig (.mk ["c"] ["VerifiableCredential"] "did:web:ex" "did:web:ex"
      "t0" .fnil (.some (mkChain n)) Option.none Option.none Option.none Option.none
      Option.none)

theorem resolveDid_ex : resolveDid env0 "did:web:ex" = .ok doc0 := rfl

theorem find_vm_ex :
    doc0.verificationMethod.find? (fun m => m.id == "did:web:ex#keys-1") =
      some { id := "did:web:ex#keys-1", type := "Ed25519VerificationKey2020",
             controller := "did:web:ex", publicKeyJwk := some pub0 } := rfl

theorem algEd : algFromProofType (some "Ed25519Signature2020") = .Ed25519 := rfl

theorem pubOf_d0 : env0.pubOf "d0" = "x0" := rfl

theorem parseDate_env0 (s : String) : env0.parseDate s = none := rfl

/-- A correctly self-signed node with no status and no expiration
passes `verifySingleVC` under `env0`, whatever its embedded parent. -/
theorem singleOk (ctx tp : List String) (subj idate : String) (claims : JsonFields)
    (parent : VCParent) (alg : Option KeyAlgorithm) (ridx : Option Int)
    (pr : Option Proof) :
    verifySingleVC env0 true
      (.mk ctx tp "did:web:ex" subj idate claims parent Option.none Option.none
        alg ridx (some (sigProof (.mk ctx tp "did:web:ex" subj idate claims parent
          Option.none Option.none alg ridx pr))))
      = .ok (subj, pub0) := by
  simp only [verifySingleVC, sigProof, VC.prf, resolveDid_ex, find_vm_ex,
    cryptoVerify, algEd, isVcRevoked, jsTruthyS, rebuiltPayloadJson, csOf,
    VC.context, VC.type, VC.issuer, VC.issuanceDate, VC.subject,
    VC.expirationDate, VC.credentialStatus, VC.claims, VC.parent,
    pubOf_d0, parseDate_env0, pub0, beq_self_eq_true, Bool.and_true,
    Bool.true_and, Bool.and_false, Bool.false_and, if_true, if_false]
  simp

theorem mkChain_subject : ∀ n, (mkChain n).subject = "did:web:ex"
  | 0 => rfl
  | _ + 1 => rfl

/-- Parent-authority and one-level scope validation succeeds for a
claim-free child issued by the parent's subject. -/
theorem validateParent_chain (p : VC) (hp : p.subject = "did:web:ex")
    (ctx tp : List String) (idate : String) (alg : Option KeyAlgorithm)
    (ridx : Option Int) (pr : Option Proof) :
    validateParentVC p (.mk ctx tp "did:web:ex" "did:web:ex" idate .fnil (.some p)
      Option.none Option.none alg ridx pr) = .ok () := by
  simp [validateParentVC, hp, csOf, csJson, jsEntries, JsonFields.append,
    JsonFields.toList, VC.issuer, VC.claims, VC.parent]

theorem chainOk : ∀ n, verifyVC env0 (mkChain n) = .ok ()
  | 0 => by
    simp only [mkChain, attachSig, VC.withProof, verifyVC]
    rw [singleOk]
  | n + 1 => by
    simp only [mkChain, attachSig, VC.withProof, verifyVC]
    rw [singleOk, chainOk n,
      validateParent_chain (mkChain n) (mkChain_subject n)]

theorem mkChain_depth : ∀ n, chainDepth (mkChain n) = n + 1
  | 0 => rfl
  | n + 1 => by
    simp only [mkChain, attachSig, VC.withProof, chainDepth, chainDepthP,
      mkChain_depth n]
    omega

/-- C5 counterexample: a 17-node delegation chain — deeper than the
claimed configurable bound of 16 — verifies successfully; no
`ChainTooDeep` failure occurs. -/
theorem C5_counterexample :
    chainDepth (mkChain 17) = 18 ∧ verifyVC env0 (mkChain 17) = .ok () :=
  ⟨mkChain_depth 17, chainOk 17⟩

/-- C5 amended: the recursion of `verifyVC` into embedded `parentVC`
nodes is unbounded — the source keeps no depth counter and has no
depth-related error — and a well-signed chain of every depth `n + 1`
verifies successfully. -/
theorem C5_no_depth_bound :
    ∀ n : Nat, chainDepth (mkChain n) = n + 1 ∧ verifyVC env0 (mkChain n) = .ok () :=
  fun n => ⟨mkChain_depth n, chainOk n⟩

/-! ## C4: getPublickeyIssuerFromVC (getIssuerKeyChain) -/

/-- A correct proof for a node issued by `issuer`, signed with `d0`. -/
def sigProofFor (issuer : String) (v : VC) : Proof :=
  { type := some "Ed25519Signature2020", created := "t0",
    proofPurpose := "assertionMethod",
    verificationMethod := issuer ++ "#keys-1",
    jws := { msg := canonicalize (rebuiltPayloadJson v), d := "d0" } }

/-- A DID document for `d` publishing `pub0` at `<d>#keys-1`. -/
def docFor (d : String) : DidDocument :=
  { id := d,
    verificationMethod := [{ id := d ++ "#keys-1",
                             type := "Ed25519VerificationKey2020",
                             controller := d,
                             publicKeyJwk := some pub0 }],
    service := [] }

def env4 : Env :=
  { env0 with resolveExternal := fun _ did =>
      if did = "did:web:a" ∨ did = "did:web:b" then some (docFor did) else none }

def rootBare : VC :=
  .mk ["c"] ["VerifiableCredential"] "did:web:a" "did:web:a" "t0" .fnil .none
    Option.none Option.none Option.none Option.none Option.none

def vcRoot : VC := rootBare.withProof (some (sigProofFor "did:web:a" rootBare))

def midBare : VC :=
  .mk ["c"] ["VerifiableCredential"] "did:web:a" "did:web:b" "t0" .fnil
    (.some vcRoot) Option.none Option.none Option.none Option.none Option.none

def vcMid : VC := midBare.withProof (some (sigProofFor "did:web:a" midBare))

def leafBare : VC :=
  .mk ["c"] ["VerifiableCredential"] "did:web:b" "did:web:c" "t0" .fnil
    (.some vcMid) Option.none Option.none Option.none Option.none Option.none

def vcLeaf : VC := leafBare.withProof (some (sigProofFor "did:web:b" leafBare))

/-- A correctly signed, revoked credential (bit 5 set). -/
def revBare : VC :=
  .mk ["c"] ["VerifiableCredential"] "did:web:ex" "did:web:ex" "t0" .fnil .none
    Option.none (some { id := "did:web:ex#revocation", type := "RevocationBitmap2022",
                        revocationBitmapIndex := 5 })
    Option.none Option.none Option.none

def vcRev : VC := revBare.withProof (some (sigProofFor "did:web:ex" revBare))

def env45 : Env := { env0 with decodeBitmap := fun _ => some [5] }

/-- A correctly signed credential already expired under `envE`. -/
def expBare : VC :=
  .mk ["c"] ["VerifiableCredential"] "did:web:ex" "did:web:ex" "t0" .fnil .none
    (some "1999") Option.none Option.none Option.none Option.none

def vcExp : VC := expBare.withProof (some (sigProofFor "did:web:ex" expBare))

def envE : Env :=
  { env0 with parseDate := fun s => if s = "1999" then some 0 else Option.none }

set_option maxRecDepth 10000 in
/-- C4 counterexample: the revocation check is not skipped — a revoked
credential fails `getPublickeyIssuerFromVC` with `revoked` — and on a
three-node chain the returned `didOri` is the immediate parent's
subject (`did:web:b`), not the chain's root subject (`did:web:a`). -/
theorem C4_counterexample :
    getPublickeyIssuerFromVC env45 vcRev = .error .revoked
    ∧ getPublickeyIssuerFromVC env4 vcLeaf =
        .ok ("did:web:c", pub0, "did:web:b", some pub0)
    ∧ vcLeaf.parent = .some vcMid ∧ vcMid.parent = .some vcRoot
    ∧ vcRoot.subject = "did:web:a"
    ∧ ("did:web:b" : String) ≠ "did:web:a" :=
  ⟨rfl, rfl, rfl, rfl, rfl, by decide⟩

/-- `verifySingleVC` without metadata checks never consults the clock
or the date parser. -/
theorem verifySingle_ts (env : Env) (t : Int) (pd : String → Option Int) (vc : VC) :
    verifySingleVC { env with now := t, parseDate := pd } false vc =
      verifySingleVC env false vc := rfl

theorem getPKI_ts : ∀ (env : Env) (t : Int) (pd : String → Option Int) (vc : VC),
    getPublickeyIssuerFromVC { env with now := t, parseDate := pd } vc =
      getPublickeyIssuerFromVC env vc
  | env, t, pd, .mk c tp i s d cl .none e st a rx pr => by
    simp only [getPublickeyIssuerFromVC, verifySingle_ts]
  | env, t, pd, .mk c tp i s d cl (.some p) e st a rx pr => by
    simp only [getPublickeyIssuerFromVC, verifySingle_ts, getPKI_ts env t pd p]

/-- On success, the first component of `verifySingleVC` is the
credential's own subject. -/
theorem verifySingle_false_subject (env : Env) (vc : VC) (q : String × Jwk)
    (h : verifySingleVC env false vc = .ok q) : q.1 = vc.subject := by
  unfold verifySingleVC at h
  try simp only [] at h
  split at h
  all_goals try split at h
  all_goals try split at h
  all_goals try split at h
  all_goals try split at h
  all_goals try split at h
  all_goals try split at h
  all_goals try contradiction
  all_goals cases h
  all_goals rfl

/-- On success, `getPublickeyIssuerFromVC` returns the credential's own
subject first, and `didOri` is the immediate parent's subject (the own
subject at the chain root). -/
theorem getPKI_shape (env : Env) :
    ∀ (vc : VC) (r : String × Jwk × String × Option Jwk),
    getPublickeyIssuerFromVC env vc = .ok r →
    r.1 = vc.subject ∧
      r.2.2.1 = (match vc.parent with | .none => vc.subject | .some p => p.subject)
  | .mk c tp i s d cl .none e st a rx pr, r, h => by
    simp only [getPublickeyIssuerFromVC] at h
    split at h
    · cases h
    · cases h
      have hs := verifySingle_false_subject env _ _ (by assumption)
      exact ⟨hs, hs⟩
  | .mk c tp i s d cl (.some p) e st a rx pr, r, h => by
    have ih := getPKI_shape env p
    simp only [getPublickeyIssuerFromVC] at h
    split at h
    · cases h
    · split at h
      · cases h
      · split at h
        · cases h
        · split at h
          · cases h
          · cases h
            refine ⟨?_, ?_⟩
            · exact verifySingle_false_subject env _ _ (by assumption)
            · exact (ih _ (by assumption)).1

set_option maxRecDepth 10000 in
/-- C4 amended: `getPublickeyIssuerFromVC` skips only the metadata
checks — its result is invariant under the clock and date parser, and
an expired credential that `verifyVC` rejects still passes — while
signature, revocation, and parent authority/scope checks are performed;
on success it returns the node's own subject and its issuer key, and
`didOri` is the immediate parent's subject (the node's own subject at
the root), not in general the chain root's subject. -/
theorem C4_getIssuerKeyChain :
    (∀ (env : Env) (t : Int) (pd : String → Option Int) (vc : VC),
      getPublickeyIssuerFromVC { env with now := t, parseDate := pd } vc =
        getPublickeyIssuerFromVC env vc)
    ∧ (∀ (env : Env) (vc : VC) (r : String × Jwk × String × Option Jwk),
        getPublickeyIssuerFromVC env vc = .ok r →
        r.1 = vc.subject ∧
          r.2.2.1 = (match vc.parent with | .none => vc.subject | .some p => p.subject))
    ∧ verifyVC envE vcExp = .error .expired
    ∧ getPublickeyIssuerFromVC envE vcExp =
        .ok ("did:web:ex", pub0, "did:web:ex", Option.none) :=
  ⟨getPKI_ts, getPKI_shape, rfl, rfl⟩

set_option maxRecDepth 10000 in
theorem C4_getIssuerKeyChain_witness :
    getPublickeyIssuerFromVC { env4 with now := 7, parseDate := fun _ => Option.none } vcLeaf =
      getPublickeyIssuerFromVC env4 vcLeaf
    ∧ (("did:web:c", pub0, "did:web:b", some pub0) :
        String × Jwk × String × Option Jwk).1 = vcLeaf.subject :=
  ⟨C4_getIssuerKeyChain.1 env4 7 (fun _ => Option.none) vcLeaf,
   (C4_getIssuerKeyChain.2.1 env4 vcLeaf
     ("did:web:c", pub0, "did:web:b", some pub0) rfl).1⟩

/-! ## C1: create/verify round trip -/

/-- For a credential with no status, no algorithm field, no index and
no proof, the serialized credential signed by `createVC` coincides with
the payload rebuilt by `verifySingleVC` (given a well-formed
`expirationDate`). -/
theorem fullEqRebuilt (ctx tp : List String) (iss subj idate : String)
    (claims : JsonFields) (exp : Option String)
    (hexp : exp = Option.none ∨ ∃ e, exp = some e ∧ e ≠ "") :
    vcFullJson (.mk ctx tp iss subj idate claims .none exp Option.none
        Option.none Option.none Option.none)
      = rebuiltPayloadJson (.mk ctx tp iss subj idate claims .none exp Option.none
        Option.none Option.none Option.none) := by
  rcases hexp with h | ⟨e, he, hne⟩
  · subst h; rfl
  · subst he
    simp [vcFullJson, rebuiltPayloadJson, csOf, VC.context, VC.type, VC.issuer,
      VC.issuanceDate, VC.subject, VC.claims, VC.parent, VC.expirationDate,
      jsTruthyS, hne]

def params1 : CreateParams :=
  { issuer := "did:web:ex", subject := "did:web:ex",
    revocationBitmapIndex := some 0 }

def c1vc : VC :=
  match createVC env0 params1 priv0 with
  | .ok v => v
  | .error _ => rootBare

/-- `verifySingleVC` succeeds on a status-free credential signed (as
`createVC` signs it) over its own serialization, when the issuer's key
resolves and the dates are valid. -/
theorem verifySingle_ok (env : Env) (w : Bool) (ctx tp : List String)
    (iss subj idate : String) (claims : JsonFields) (exp : Option String)
    (doc : DidDocument) (vm : VerificationMethod) (pub : Jwk) (d : String)
    (hres : resolveDid env iss = .ok doc)
    (hfind : doc.verificationMethod.find? (fun m => m.id == iss ++ "#keys-1") = some vm)
    (hvm : vm.publicKeyJwk = some pub)
    (hpk : pub.kty = some "OKP") (hpc : pub.crv = some "Ed25519")
    (hpx : pub.x = some (env.pubOf d)) (hpxne : env.pubOf d ≠ "")
    (hexp : exp = Option.none ∨ ∃ e, exp = some e ∧ e ≠ "")
    (hnotexp : ∀ t, env.parseDate (exp.getD "") = some t → env.now ≤ t)
    (hnotfut : ∀ t, env.parseDate idate = some t → t ≤ env.now) :
    verifySingleVC env w
      (.mk ctx tp iss subj idate claims .none exp Option.none Option.none
        Option.none (some
          { type := some "Ed25519Signature2020"
            created := idate
            proofPurpose := "assertionMethod"
            verificationMethod := iss ++ "#keys-1"
            jws :=
              { msg := canonicalize (vcFullJson (.mk ctx tp iss subj idate claims
                  .none exp Option.none Option.none Option.none Option.none))
                d := d } }))
      = .ok (subj, pub) := by
  have hX : (match env.parseDate (exp.getD "") with
      | some t => decide (t < env.now) | none => false) = false := by
    cases hpd : env.parseDate (exp.getD "") with
    | none => rfl
    | some t =>
      have := hnotexp t hpd
      simp only []
      exact decide_eq_false (by omega)
  have hY : (match env.parseDate idate with
      | some t => decide (env.now < t) | none => false) = false := by
    cases hpd : env.parseDate idate with
    | none => rfl
    | some t =>
      have := hnotfut t hpd
      simp only []
      exact decide_eq_false (by omega)
  have hbx : (env.pubOf d == "") = false := by
    simp [hpxne]
  rw [fullEqRebuilt ctx tp iss subj idate claims exp hexp]
  simp only [verifySingleVC, VC.prf, VC.issuer, VC.subject, VC.issuanceDate,
    VC.credentialStatus, VC.expirationDate, hres, hfind, hvm, cryptoVerify,
    algEd, isVcRevoked, hpk, hpc, hpx, hbx, rebuiltPayloadJson, csOf, VC.context,
    VC.type, VC.claims, VC.parent, jsTruthyS, beq_self_eq_true, Bool.and_true,
    Bool.true_and, hX, hY, Bool.and_false, Bool.false_and, decide_False,
    Bool.false_eq_true, if_false, if_true]
  cases w
  · simp
  · simp [hX, hY]

set_option maxRecDepth 10000 in
/-- C1: the round trip `verifyVC (createVC params key) = Ok` holds for
valid parameters without a revocation index, but FAILS whenever a
revocation index is configured (even with no revocation bit set):
`createVC` signs the credential including `credentialStatus`, while
`verifySingleVC` rebuilds the payload without it, so the signature
never matches and verification reports `signatureInvalid`. -/
theorem C1_create_verify_roundtrip :
    (∀ (env : Env) (params : CreateParams) (priv : Jwk) (doc : DidDocument)
       (vm : VerificationMethod) (pub : Jwk) (vc : VC),
      priv.kty = some "OKP" → priv.crv = some "Ed25519" → jsTruthyS priv.d = true →
      (params.algorithm = Option.none ∨ params.algorithm = some .Ed25519) →
      params.revocationBitmapIndex = Option.none →
      (params.expirationDate = Option.none ∨
        ∃ e, params.expirationDate = some e ∧ e ≠ "") →
      resolveDid env params.issuer = .ok doc →
      doc.verificationMethod.find? (fun m => m.id == params.issuer ++ "#keys-1")
        = some vm →
      vm.publicKeyJwk = some pub →
      pub.kty = some "OKP" → pub.crv = some "Ed25519" →
      pub.x = some (env.pubOf (priv.d.getD "")) →
      env.pubOf (priv.d.getD "") ≠ "" →
      (∀ t, env.parseDate (params.expirationDate.getD "") = some t → env.now ≤ t) →
      (∀ t, env.parseDate (params.issuanceDate.getD env.nowIso) = some t →
        t ≤ env.now) →
      createVC env params priv = .ok vc →
      verifyVC env vc = .ok ())
    ∧ createVC env0 params1 priv0 = .ok c1vc
    ∧ c1vc.credentialStatus = some (revocationStatus "did:web:ex" 0)
    ∧ env0.decodeBitmap "AAA" = some []
    ∧ verifyVC env0 c1vc = .error .signatureInvalid := by
  refine ⟨?_, rfl, rfl, rfl, rfl⟩
  intro env params priv doc vm pub vc hk hc hd halg hridx hexp hres hfind hvm
    hpk hpc hpx hpxne hnotexp hnotfut hcreate
  have halg' : params.algorithm.getD .Ed25519 = .Ed25519 := by
    rcases halg with h | h <;> simp [h]
  have hexp' : (if jsTruthyS params.expirationDate then params.expirationDate
      else Option.none) = params.expirationDate := by
    rcases hexp with h | ⟨e, he, hne⟩
    · simp [h, jsTruthyS]
    · simp [he, jsTruthyS, hne]
  have htk : jsTruthyS priv.kty = true := by simp [hk, jsTruthyS]
  have h1 : (priv.kty == some "OKP") = true := by simp [hk]
  have h2 : (priv.crv == some "Ed25519") = true := by simp [hc]
  simp [createVC, cryptoSign, halg', hridx, hexp', htk, h1, h2, hd,
    VC.withProof] at hcreate
  subst hcreate
  simp only [verifyVC]
  rw [verifySingle_ok env true _ _ _ _ _ _ _ doc vm pub _ hres hfind hvm hpk hpc
    hpx hpxne hexp hnotexp hnotfut]

def params0 : CreateParams := { issuer := "did:web:ex", subject := "did:web:ex" }

def c1vcOK : VC :=
  match createVC env0 params0 priv0 with
  | .ok v => v
  | .error _ => rootBare

def vm0 : VerificationMethod :=
  { id := "did:web:ex#keys-1", type := "Ed25519VerificationKey2020",
    controller := "did:web:ex", publicKeyJwk := some pub0 }

set_option maxRecDepth 10000 in
theorem C1_create_verify_roundtrip_witness : verifyVC env0 c1vcOK = .ok () :=
  C1_create_verify_roundtrip.1 env0 params0 priv0 doc0 vm0 pub0 c1vcOK
    rfl rfl (by decide) (Or.inl rfl) rfl (Or.inl rfl) rfl rfl rfl rfl rfl rfl
    (by decide) (fun t h => absurd h (by simp [env0]))
    (fun t h => absurd h (by simp [env0])) rfl
